import Mathlib

/-!
Verification of the checklist application core (storage repair engine,
preset catalog, state store, action layer) against its design document.

The JavaScript sources are shallowly embedded:
* untrusted parsed-JSON values (the input of the repair engine) are the
  inductive `JVal`; JS coercions (`String(v)`, truthiness, `||`, `??`,
  `.trim()`, `.slice(0,n)`) are modelled by `jsToString`, `truthy`, `jOr`,
  `jNullish`, `jsTrim`, `jsSlice`;
* the repaired checklist document, settings and application state are the
  structures `Cat`, `Item`, `Doc`, `Settings`, `AppState`;
* the id generator (`uid()` / `makeId()` in the sources, backed by
  `Math.random`) is modelled by an explicit generator function
  `uidf : Nat -> String` applied to a threaded counter;
* the store's reference identity and subscriber notification are modelled
  by the `Store` structure carrying an identity token and a notification
  counter; the debounced persistence triggers are modelled by call counters
  in `Exec`.
-/

/-! ## JS value model -/

/-- A parsed-JSON / JS value as seen by the repair engine.  `undefined` models
JavaScript `undefined` (e.g. a missing object field); `obj` carries its
fields as an association list with unique keys (the shape produced by
`JSON.parse`). Function values never reach the repair engine and are not
modelled. -/
inductive JVal where
  | undefined
  | null
  | bool (b : Bool)
  | num (n : Int)
  | str (s : String)
  | arr (xs : List JVal)
  | obj (fs : List (String × JVal))
deriving Repr

/-- JS truthiness (`!!v`). `NaN` is not modelled (numbers are `Int`). -/
def truthy : JVal → Bool
  | .undefined => false
  | .null => false
  | .bool b => b
  | .num n => n != 0
  | .str s => s != ""
  | .arr _ => true
  | .obj _ => true

/-- JS `a || b`: returns `a` when truthy, else `b`. -/
def jOr (a b : JVal) : JVal := if truthy a then a else b

/-- JS `v ?? ''` as used by `ensureString`. -/
def jNullish (v : JVal) : JVal :=
  match v with
  | .undefined => .str ""
  | .null => .str ""
  | v => v

mutual

/-- JS `String(v)` conversion. Arrays stringify as their elements joined
with commas (with `null` / `undefined` elements rendered empty), plain
objects as the literal `"[object Object]"`. -/
def jsToString : JVal → String
  | .undefined => "undefined"
  | .null => "null"
  | .bool b => if b then "true" else "false"
  | .num n => toString n
  | .str s => s
  | .obj _ => "[object Object]"
  | .arr xs => arrJoin xs

/-- `Array.prototype.join(',')` element rendering. -/
def elemStr : JVal → String
  | .undefined => ""
  | .null => ""
  | .bool b => if b then "true" else "false"
  | .num n => toString n
  | .str s => s
  | .obj _ => "[object Object]"
  | .arr xs => arrJoin xs

/-- `Array.prototype.join(',')`. -/
def arrJoin : List JVal → String
  | [] => ""
  | [x] => elemStr x
  | x :: y :: xs => elemStr x ++ "," ++ arrJoin (y :: xs)

end

/-- Field access `v.k` / `v?.k`: on anything that is not a plain object the
result is `undefined`. -/
def getField : List (String × JVal) → String → JVal
  | [], _ => .undefined
  | (k', v) :: rest, k => if k' = k then v else getField rest k

/-- JS property read `v.k` (also `v?.k`; both yield `undefined` on
non-objects reaching the repair engine). -/
def jGet : JVal → String → JVal
  | .obj fs, k => getField fs k
  | _, _ => .undefined

/-- `typeof v === 'object'` (true for `null`, arrays and plain objects). -/
def isObjType : JVal → Bool
  | .null => true
  | .arr _ => true
  | .obj _ => true
  | _ => false

/-! ## JS string helpers -/

/-- Whitespace removed by `String.prototype.trim()` (the characters that
occur in practice; exotic Unicode space classes are not modelled). -/
def isJsWS (c : Char) : Bool :=
  c = ' ' || c = '\t' || c = '\n' || c = '\r' || c = '\x0b' || c = '\x0c'

/-- `String.prototype.trim()`. -/
def jsTrim (s : String) : String :=
  ⟨((s.data.dropWhile isJsWS).reverse.dropWhile isJsWS).reverse⟩

/-- `String.prototype.slice(0, n)` (code points stand in for UTF-16
units). -/
def jsSlice (s : String) (n : Nat) : String := ⟨s.data.take n⟩

/-- `ensureString(v, maxLen)` from actions.js: `String(v ?? '').trim()`
then `.slice(0, maxLen)`. -/
def ensureString (v : JVal) (maxLen : Nat) : String :=
  jsSlice (jsTrim (jsToString (jNullish v))) maxLen

/-- `ensureString` applied to an argument that is already a string (the
DOM always hands the actions strings for ids and the mode key). -/
def ensureStringS (s : String) (maxLen : Nat) : String :=
  jsSlice (jsTrim s) maxLen

/-- `normalizeEmoji(v)` from actions.js. -/
def normalizeEmoji (v : JVal) : Option String :=
  let e := ensureString v 4
  if e = "" then none else some e

/-! ## Data model -/

/-- A repaired category (`repairCat` output / preset category). -/
structure Cat where
  id : String
  name : String
  emoji : Option String
deriving Repr, DecidableEq

/-- A repaired checklist item. -/
structure Item where
  id : String
  cat : String
  name : String
  emoji : Option String
  done : Bool
deriving Repr, DecidableEq

/-- The checklist document (`data`). -/
structure Doc where
  version : Nat
  mode : String
  cats : List Cat
  items : List Item
  completedOnce : Bool
deriving Repr, DecidableEq

/-- Settings. -/
structure Settings where
  tripMode : String
  motion : Bool
  sound : Bool
  streak : Nat
deriving Repr, DecidableEq

/-- Default settings (`DEFAULT_SETTINGS` in app.js). -/
def defaultSettings : Settings :=
  { tripMode := "salida", motion := true, sound := true, streak := 0 }

/-- The store's state shape built in `boot()`. -/
structure AppState where
  settings : Settings
  data : Doc
  activeCat : String
deriving Repr, DecidableEq

/-! ## Preset catalog -/

/-- An item template of the preset catalog (carries no id). -/
structure TItem where
  cat : String
  name : String
  emoji : String
deriving Repr, DecidableEq

/-- One entry of `PRESETS`. -/
structure Preset where
  label : String
  cats : List Cat
  pitems : List TItem
deriving Repr, DecidableEq

def presetSalida : Preset :=
  { label := "🧳 Salida"
  , cats :=
      [ { id := "tech", name := "Tecnología", emoji := some "🔌" }
      , { id := "docs", name := "Documentos", emoji := some "🪪" }
      , { id := "ropa", name := "Ropa", emoji := some "👕" }
      , { id := "hig", name := "Higiene", emoji := some "🧼" }
      , { id := "otros", name := "Otros", emoji := some "✨" } ]
  , pitems :=
      [ { cat := "tech", name := "Cargador del celular", emoji := "🔌" }
      , { cat := "tech", name := "Power bank", emoji := "🔋" }
      , { cat := "tech", name := "Audífonos", emoji := "🎧" }
      , { cat := "docs", name := "Cédula / documento", emoji := "🪪" }
      , { cat := "docs", name := "Tarjeta / efectivo", emoji := "💳" }
      , { cat := "ropa", name := "Chaqueta", emoji := "🧥" }
      , { cat := "hig", name := "Desodorante", emoji := "🧴" }
      , { cat := "hig", name := "Cepillo + crema", emoji := "🪥" }
      , { cat := "otros", name := "Llaves", emoji := "🔑" } ] }

def presetViaje : Preset :=
  { label := "✈️ Viaje"
  , cats :=
      [ { id := "tech", name := "Tecnología", emoji := some "🔌" }
      , { id := "docs", name := "Documentos", emoji := some "🧾" }
      , { id := "salud", name := "Salud", emoji := some "💊" }
      , { id := "ropa", name := "Ropa", emoji := some "🧳" }
      , { id := "otros", name := "Otros", emoji := some "✨" } ]
  , pitems :=
      [ { cat := "docs", name := "Pasaporte / ID", emoji := "🛂" }
      , { cat := "docs", name := "Tiquetes / reservas", emoji := "🎫" }
      , { cat := "tech", name := "Cargadores (todos)", emoji := "🔌" }
      , { cat := "tech", name := "Adaptador", emoji := "🔁" }
      , { cat := "salud", name := "Medicinas", emoji := "💊" }
      , { cat := "ropa", name := "Medias extra", emoji := "🧦" } ] }

def presetGira : Preset :=
  { label := "🎭 Gira"
  , cats :=
      [ { id := "tech", name := "Tech", emoji := some "🔌" }
      , { id := "audio", name := "Audio", emoji := some "🎛️" }
      , { id := "ropa", name := "Ropa", emoji := some "👕" }
      , { id := "docs", name := "Docs", emoji := some "🪪" }
      , { id := "otros", name := "Otros", emoji := some "✨" } ]
  , pitems :=
      [ { cat := "audio", name := "Micrófono / adaptadores", emoji := "🎤" }
      , { cat := "audio", name := "Interfaces / cables", emoji := "🧵" }
      , { cat := "tech", name := "Cargador laptop", emoji := "💻" }
      , { cat := "tech", name := "USB / backup", emoji := "💾" }
      , { cat := "ropa", name := "Outfit / cambio", emoji := "👕" }
      , { cat := "docs", name := "Info del venue", emoji := "📄" } ] }

def presetPlaya : Preset :=
  { label := "🏖️ Playa"
  , cats :=
      [ { id := "ropa", name := "Ropa", emoji := some "🩳" }
      , { id := "sol", name := "Sol", emoji := some "🧴" }
      , { id := "tech", name := "Tech", emoji := some "📱" }
      , { id := "otros", name := "Otros", emoji := some "✨" } ]
  , pitems :=
      [ { cat := "sol", name := "Bloqueador", emoji := "🧴" }
      , { cat := "sol", name := "Gafas", emoji := "🕶️" }
      , { cat := "ropa", name := "Vestido de baño", emoji := "👙" }
      , { cat := "ropa", name := "Toalla", emoji := "🧻" }
      , { cat := "tech", name := "Cargador", emoji := "🔌" } ] }

def presetFrio : Preset :=
  { label := "❄️ Clima frío"
  , cats :=
      [ { id := "ropa", name := "Ropa", emoji := some "🧥" }
      , { id := "salud", name := "Salud", emoji := some "🫖" }
      , { id := "tech", name := "Tech", emoji := some "🔌" }
      , { id := "otros", name := "Otros", emoji := some "✨" } ]
  , pitems :=
      [ { cat := "ropa", name := "Chaqueta gruesa", emoji := "🧥" }
      , { cat := "ropa", name := "Guantes", emoji := "🧤" }
      , { cat := "ropa", name := "Gorro", emoji := "🧢" }
      , { cat := "salud", name := "Humectante / labios", emoji := "💄" }
      , { cat := "tech", name := "Cargador", emoji := "🔌" } ] }

/-- The five entries of `PRESETS` in catalog order. -/
def allPresets : List Preset :=
  [presetSalida, presetViaje, presetGira, presetPlaya, presetFrio]

/-- The catalog mode keys. -/
def presetKeys : List String := ["salida", "viaje", "gira", "playa", "frio"]

/-- `presetFor(mode)`: `PRESETS[mode] || PRESETS.salida`. -/
def presetFor (m : String) : Preset :=
  if m = "salida" then presetSalida
  else if m = "viaje" then presetViaje
  else if m = "gira" then presetGira
  else if m = "playa" then presetPlaya
  else if m = "frio" then presetFrio
  else presetSalida

/-! ## newPreset (app.js) -/

/-- Materializing the items of a preset, assigning a freshly generated id
(`uid()`) to each, threading the generator counter. -/
def materializeItems (uidf : Nat → String) : List TItem → Nat → List Item × Nat
  | [], g => ([], g)
  | t :: ts, g =>
      let rest := materializeItems uidf ts (g + 1)
      ({ id := uidf g
       , cat := t.cat
       , name := t.name
       , emoji := if t.emoji ≠ "" then some t.emoji else none
       , done := false } :: rest.1, rest.2)

/-- `newPreset(mode)` from app.js: a fresh document for `mode`, with the
catalog categories copied and every item freshly id-stamped and
`done:false`. -/
def newPreset (uidf : Nat → String) (m : String) (g : Nat) : Doc × Nat :=
  let p := presetFor m
  let mat := materializeItems uidf p.pitems g
  ({ version := 2
   , mode := m
   , cats := p.cats
   , items := mat.1
   , completedOnce := false }, mat.2)

/-! ## Repair engine (storage.js) -/

/-- `repairCat(c)` from storage.js. -/
def repairCat (x : JVal) : Cat :=
  let id0 := jsTrim (jsToString (jOr (jGet x "id") (.str "otros")))
  let name0 := jsTrim (jsToString (jOr (jGet x "name") (.str "Otros")))
  { id := if id0 = "" then "otros" else id0
  , name := if name0 = "" then "Otros" else name0
  , emoji :=
      if truthy (jGet x "emoji") then some (jsSlice (jsToString (jGet x "emoji")) 4)
      else none }

/-- `repairItem(it)` from storage.js (consumes one generated id when the
raw id is falsy). -/
def repairItem (uidf : Nat → String) (x : JVal) (g : Nat) : Item × Nat :=
  let idv := jGet x "id"
  let idp : String × Nat := if truthy idv then (jsToString idv, g) else (uidf g, g + 1)
  ({ id := idp.1
   , cat := jsToString (jOr (jGet x "cat") (.str "otros"))
   , name := jsSlice (jsToString (jOr (jGet x "name") (.str "Sin nombre"))) 80
   , emoji :=
       if truthy (jGet x "emoji") then some (jsSlice (jsToString (jGet x "emoji")) 4)
       else none
   , done := truthy (jGet x "done") }, idp.2)

/-- `d.items.map(repairItem)` with the generator threaded left to right. -/
def repairItems (uidf : Nat → String) : List JVal → Nat → List Item × Nat
  | [], g => ([], g)
  | x :: xs, g =>
      let hd := repairItem uidf x g
      let tl := repairItems uidf xs hd.2
      (hd.1 :: tl.1, tl.2)

/-- The id de-duplication pass of `repairData`: scanning in order with the
set `seen` of ids already kept, any item with an empty or previously seen
id receives a freshly generated id. -/
def dedupIds (uidf : Nat → String) : List Item → List String → Nat → List Item × Nat
  | [], _, g => ([], g)
  | it :: rest, seen, g =>
      if it.id = "" ∨ seen.contains it.id then
        let newId := uidf g
        let tl := dedupIds uidf rest (newId :: seen) (g + 1)
        ({ it with id := newId } :: tl.1, tl.2)
      else
        let tl := dedupIds uidf rest (it.id :: seen) g
        (it :: tl.1, tl.2)

/-- The final stretch of `repairData` on the structurally sound path:
with the repaired categories `c0 :: crest` and repaired items in hand,
re-point unknown item categories to `'otros'` (or the first category) and
de-duplicate item ids. -/
def repairAssemble (uidf : Nat → String) (mode : String) (c0 : Cat) (crest : List Cat)
    (items : List Item) (latch : Bool) (g : Nat) : Doc × Nat :=
  let cats := c0 :: crest
  let catIds := cats.map (fun c => c.id)
  let fallbackCat := if catIds.contains "otros" then "otros" else c0.id
  let items2 := items.map (fun it =>
    if catIds.contains it.cat then it else { it with cat := fallbackCat })
  let ded := dedupIds uidf items2 [] g
  ({ version := 2
   , mode := mode
   , cats := cats
   , items := ded.1
   , completedOnce := latch }, ded.2)

/-- The raw `cats` payload of a parsed value (empty list when absent or
not an array; only used on the array branch). -/
def catsArr (d : JVal) : List JVal :=
  match jGet d "cats" with
  | .arr xs => xs
  | _ => []

/-- The raw `items` payload of a parsed value. -/
def itemsArr (d : JVal) : List JVal :=
  match jGet d "items" with
  | .arr xs => xs
  | _ => []

/-- The mode the repair algorithm resolves:
`String(d.mode || fallbackMode || defaultSettings.tripMode)` on the object
path, the raw fallback mode when the value is discarded up front. -/
def resolvedMode (d : JVal) (fallbackMode : String) : String :=
  if truthy d && isObjType d then
    jsToString (jOr (jGet d "mode") (jOr (.str fallbackMode) (.str defaultSettings.tripMode)))
  else fallbackMode

/-- `repairData(d, fallbackMode)` from storage.js.  Mirrors the source
line by line: non-objects restart from the preset; `cats` / `items` are
mapped through the per-field coercions (consuming generated ids for items
with falsy raw ids) before the structural checks; missing or empty
structure regenerates the preset for the resolved mode; otherwise item
categories are re-pointed to an existing category id and item ids are
de-duplicated. -/
def repairData (uidf : Nat → String) (d : JVal) (fallbackMode : String) (g : Nat) :
    Doc × Nat :=
  if ¬ (truthy d && isObjType d) then newPreset uidf fallbackMode g
  else
    let mode := resolvedMode d fallbackMode
    match jGet d "cats", jGet d "items" with
    | .arr cxs, .arr ixs =>
        let r := repairItems uidf ixs g
        match cxs.map repairCat with
        | [] => newPreset uidf mode r.2
        | c0 :: crest =>
            repairAssemble uidf mode c0 crest r.1 (truthy (jGet d "__completedOnce")) r.2
    | .arr _, _ => newPreset uidf mode g
    | _, .arr ixs => newPreset uidf mode (repairItems uidf ixs g).2
    | _, _ => newPreset uidf mode g

/-- `loadData` from storage.js, with the target mode already resolved to a
string and the stored bytes modelled as `none` when absent or not valid
JSON (the `catch` path) and `some parsed` otherwise. -/
def loadData (uidf : Nat → String) (raw : Option JVal) (mode : String) (g : Nat) :
    Doc × Nat :=
  match raw with
  | none => newPreset uidf mode g
  | some parsed => repairData uidf parsed mode g

/-! ## State store (state.js) -/

/-- The store of state.js, modelled with an explicit reference-identity
token: `val` is the current state value, `ident` the identity of the
current state object, `nextIdent` a supply of fresh identities, and
`notifyCount` the number of times `emit` has run (each `emit` invokes
every subscriber once with `(prev, next)`). -/
structure Store (V : Type) where
  val : V
  ident : Nat
  nextIdent : Nat
  notifyCount : Nat
deriving Repr, DecidableEq

/-- Committing a genuinely new state object: a fresh identity is given to
the new value and every subscriber is notified. -/
def Store.commit {V : Type} (st : Store V) (v : V) : Store V :=
  { val := v
  , ident := st.nextIdent
  , nextIdent := st.nextIdent + 1
  , notifyCount := st.notifyCount + 1 }

/-- `isPlainObject(v)` from state.js (arrays and primitives are not plain
objects). -/
def isPlainObject : JVal → Bool
  | .obj _ => true
  | _ => false

/-- First-match lookup in the field list of a plain object. -/
def lookupF : List (String × JVal) → String → Option JVal
  | [], _ => none
  | (k', v) :: rest, k => if k' = k then some v else lookupF rest k

/-- The keys of `a` keep their order and are overridden by `b` where both
define them (`{ ...a, ...b }`, first half). -/
def overrideVals (b : List (String × JVal)) : List (String × JVal) → List (String × JVal)
  | [] => []
  | (k, v) :: rest =>
      (k, match lookupF b k with | some w => w | none => v) :: overrideVals b rest

/-- JS object spread `{ ...a, ...b }` on field lists. -/
def spreadFields (a b : List (String × JVal)) : List (String × JVal) :=
  overrideVals b a ++ b.filter (fun kv => ¬ a.any (fun kv' => kv'.1 = kv.1))

/-- `{ ...prev, ...out }` where `prev` is the state object. -/
def jsMergeState (prev out : JVal) : JVal :=
  match prev, out with
  | .obj a, .obj b => .obj (spreadFields a b)
  | _, .obj b => .obj b
  | p, _ => p

/-- An argument to `setState`: an updater function or a plain value (any
non-function value is passed as `val`). -/
inductive SetArg where
  | fn (f : JVal → JVal)
  | val (v : JVal)

/-- `setState` from state.js: updater results and direct patches that are
plain objects are shallow-merged over the previous state and committed;
any other input leaves `next === prev`, which short-circuits before
notifying subscribers. -/
def setState (st : Store JVal) : SetArg → Store JVal
  | .fn f =>
      let out := f st.val
      if isPlainObject out then st.commit (jsMergeState st.val out) else st
  | .val v =>
      if isPlainObject v then st.commit (jsMergeState st.val v) else st

/-! ## Action layer (actions.js) -/

/-- Executor state for the wired application: the typed store plus the id
generator counter and counters of the debounced persistence triggers
(`saveData()` / `saveSettings()` calls made by the actions). -/
structure Exec where
  store : Store AppState
  gen : Nat
  saveDataCalls : Nat
  saveSettingsCalls : Nat
deriving Repr, DecidableEq

/-- `updateData(mutator)`: clones the state and its `items`/`cats` arrays
(value-identical), applies the mutator, commits the always-fresh object
(so subscribers are always notified) and triggers a debounced data
write. -/
def updateData (mutator : AppState → AppState) (e : Exec) : Exec :=
  { e with
    store := e.store.commit (mutator e.store.val)
  , saveDataCalls := e.saveDataCalls + 1 }

/-- `updateSettings(mutator)`. -/
def updateSettings (mutator : AppState → AppState) (e : Exec) : Exec :=
  { e with
    store := e.store.commit (mutator e.store.val)
  , saveSettingsCalls := e.saveSettingsCalls + 1 }

/-- `next.data.items.find(x => x.id === id)` exists. -/
def hasId (id : String) (l : List Item) : Bool := l.any (fun it => it.id == id)

/-- Flipping `done` on the first item whose id matches (the in-place
mutation through `find` in `toggleDone`). -/
def toggleFirst (id : String) : List Item → List Item
  | [] => []
  | it :: rest =>
      if it.id = id then { it with done := !it.done } :: rest
      else it :: toggleFirst id rest

/-- The mutator body of `toggleDone`: when the id matches an item its
`done` flips and the completion latch clears, otherwise the mutator
returns before touching anything. -/
def toggleApply (cleanId : String) (s : AppState) : AppState :=
  if hasId cleanId s.data.items then
    { s with data :=
        { s.data with items := toggleFirst cleanId s.data.items, completedOnce := false } }
  else s

/-- `toggleDone(id)` on the executor (empty cleaned ids return before any
state commit). -/
def toggleDone (id : String) (e : Exec) : Exec :=
  let cleanId := ensureStringS id 120
  if cleanId = "" then e
  else updateData (toggleApply cleanId) e

/-- The state value produced by `toggleDone(id)`. -/
def toggleDoneS (id : String) (s : AppState) : AppState :=
  let cleanId := ensureStringS id 120
  if cleanId = "" then s
  else toggleApply cleanId s

/-- The state value produced by `deleteItem(id)`. -/
def deleteItemS (id : String) (s : AppState) : AppState :=
  let cleanId := ensureStringS id 120
  if cleanId = "" then s
  else
    { s with data :=
        { s.data with
          items := s.data.items.filter (fun it => it.id ≠ cleanId)
        , completedOnce := false } }

/-- The state value produced by `resetChecks()`. -/
def resetChecksS (s : AppState) : AppState :=
  { s with data :=
      { s.data with
        items := s.data.items.map (fun it => { it with done := false })
      , completedOnce := false } }

/-- The state value produced by `setAll(done)`. -/
def setAllS (done : Bool) (s : AppState) : AppState :=
  { s with data :=
      { s.data with
        items := s.data.items.map (fun it => { it with done := done })
      , completedOnce := false } }

/-- The arguments of `createItem` (raw values as handed by the UI). -/
structure CreateArgs where
  name : JVal
  emoji : JVal
  cat : JVal
deriving Repr

/-- The structured result of `createItem`. -/
structure CreateResult where
  ok : Bool
  reason : Option String
deriving Repr, DecidableEq

/-- The cleaned category key `createItem` stamps on the new item:
`ensureString(cat, 40) || 'otros'`. -/
def cleanCatOf (a : CreateArgs) : String :=
  let c := ensureString a.cat 40
  if c = "" then "otros" else c

/-- `createItem({name, emoji, cat})` at the state level: an empty trimmed
name fails with `EMPTY_NAME` and no mutation; otherwise a new item with a
freshly generated id is prepended and the completion latch clears. -/
def createItemS (uidf : Nat → String) (a : CreateArgs) (s : AppState) (g : Nat) :
    CreateResult × AppState × Nat :=
  let cleanName := ensureString a.name 60
  let cleanEmoji := normalizeEmoji a.emoji
  if cleanName = "" then ({ ok := false, reason := some "EMPTY_NAME" }, s, g)
  else
    ({ ok := true, reason := none }
    , { s with data :=
          { s.data with
            items :=
              { id := uidf g
              , cat := cleanCatOf a
              , name := cleanName
              , emoji := cleanEmoji
              , done := false } :: s.data.items
          , completedOnce := false } }
    , g + 1)

/-- `createItem` on the executor (the failure path performs no state
commit and no persistence trigger). -/
def createItem (uidf : Nat → String) (a : CreateArgs) (e : Exec) : CreateResult × Exec :=
  let r := createItemS uidf a e.store.val e.gen
  if r.1.ok then
    (r.1, updateData (fun _ => r.2.1) { e with gen := r.2.2 })
  else (r.1, e)

/-- The state value produced by `changeMode(mode)`: the normalized mode
key lands in `settings.tripMode` and the whole document is replaced by a
fresh preset for it (`activeCat` resets to `'all'`). -/
def changeModeS (uidf : Nat → String) (mode : String) (s : AppState) (g : Nat) :
    AppState × Nat :=
  let c := ensureStringS mode 24
  let m := if c = "" then "salida" else c
  let np := newPreset uidf m g
  ({ s with
     settings := { s.settings with tripMode := m }
   , activeCat := "all"
   , data := np.1 }, np.2)

/-- The state value produced by `wipeAll()`. -/
def wipeAllS (uidf : Nat → String) (s : AppState) (g : Nat) : AppState × Nat :=
  let np := newPreset uidf "salida" g
  ({ s with
     settings := { tripMode := "salida", motion := true, sound := true, streak := 0 }
   , activeCat := "all"
   , data := np.1 }, np.2)

/-! ## Completion logic (render.js `renderProgress` + app.js `runProgress`) -/

/-- `done` count of `renderProgress`. -/
def doneCount (d : Doc) : Nat := (d.items.filter (fun it => it.done)).length

/-- `completed` as computed by `renderProgress`:
`total > 0 && done === total`. -/
def completedOf (d : Doc) : Bool :=
  decide (0 < d.items.length) && (doneCount d == d.items.length)

/-- `runProgress` from app.js, state transition part: on a completed list
with a cleared latch, the latch sets and the streak increments once; on an
incomplete list with a set latch, the latch resets. -/
def runProgress (s : AppState) : AppState :=
  if completedOf s.data then
    if ¬ s.data.completedOnce then
      { s with
        data := { s.data with completedOnce := true }
      , settings := { s.settings with streak := s.settings.streak + 1 } }
    else s
  else
    if s.data.completedOnce then
      { s with data := { s.data with completedOnce := false } }
    else s

/-! ## Round trip of a repaired document back into a JS value -/

/-- The JS object a repaired category is. -/
def catToJVal (c : Cat) : JVal :=
  .obj [ ("id", .str c.id)
       , ("name", .str c.name)
       , ("emoji", match c.emoji with | some e => .str e | none => .null) ]

/-- The JS object a repaired item is. -/
def itemToJVal (it : Item) : JVal :=
  .obj [ ("id", .str it.id)
       , ("cat", .str it.cat)
       , ("name", .str it.name)
       , ("emoji", match it.emoji with | some e => .str e | none => .null)
       , ("done", .bool it.done) ]

/-- The JS object a repaired document is (the value `repairData` receives
when applied to its own output). -/
def docToJVal (d : Doc) : JVal :=
  .obj [ ("version", .num (Int.ofNat d.version))
       , ("mode", .str d.mode)
       , ("cats", .arr (d.cats.map catToJVal))
       , ("items", .arr (d.items.map itemToJVal))
       , ("__completedOnce", .bool d.completedOnce) ]

/-! ## Derived predicates used by the verified properties -/

/-- Is the value a JS array? -/
def isArr : JVal → Bool
  | .arr _ => true
  | _ => false

/-- Is the value the empty JS array? -/
def isEmptyArr : JVal → Bool
  | .arr [] => true
  | _ => false

/-- A parsed value the repair algorithm refuses to repair partially:
`cats` not an array, or `items` not an array, or `cats` empty. -/
def BadShape (d : JVal) : Prop :=
  isArr (jGet d "cats") = false ∨ isArr (jGet d "items") = false ∨
    isEmptyArr (jGet d "cats") = true

instance (d : JVal) : Decidable (BadShape d) := by
  unfold BadShape; infer_instance

/-- The raw item ids the repair pass keeps as strings (truthy raw `id`
fields, string-coerced); freshly generated ids must avoid them for the
uniqueness invariant to hold. -/
def keptIds (xs : List JVal) : List String :=
  xs.filterMap (fun x =>
    if truthy (jGet x "id") then some (jsToString (jGet x "id")) else none)

/-- A well-behaved id generator: distinct calls yield distinct, non-empty
ids (what `Math.random().toString(16) + Date.now().toString(16)` is
assumed to deliver). -/
def UidOK (uidf : Nat → String) : Prop :=
  Function.Injective uidf ∧ ∀ n, uidf n ≠ ""

/-- The category ids of a document. -/
def catIdsOf (d : Doc) : List String := d.cats.map (fun c => c.id)

/-- Category referential integrity: every item's `cat` is the id of a
category of the document. -/
def catOK (d : Doc) : Prop := ∀ it ∈ d.items, it.cat ∈ catIdsOf d

/-- Item id uniqueness for a document. -/
def idsNodup (d : Doc) : Prop := (d.items.map (fun it => it.id)).Nodup

/-- A value whose string coercion is non-empty whenever it is truthy.
Truthy values with an empty string image (such as the empty array) are
exactly the inputs on which a second repair pass diverges from the
first. -/
def StrSafe (v : JVal) : Prop := truthy v = true → jsToString v ≠ ""

/-- The string-coerced field positions of a parsed document that the
repair pass does not guard with a fallback after coercion: the `mode`
field, category emojis, item names and item emojis. -/
def CondDoc (d : JVal) : Prop :=
  StrSafe (jGet d "mode") ∧
  (∀ x ∈ catsArr d, StrSafe (jGet x "emoji")) ∧
  (∀ x ∈ itemsArr d, StrSafe (jGet x "name") ∧ StrSafe (jGet x "emoji"))

/-- An emoji field in the canonical form the repair pass produces: either
absent or a non-empty string of at most four characters. -/
def EmojiOK : Option String → Prop
  | none => True
  | some e => e ≠ "" ∧ e.data.length ≤ 4

instance (em : Option String) : Decidable (EmojiOK em) :=
  match em with
  | none => isTrue trivial
  | some e => inferInstanceAs (Decidable (e ≠ "" ∧ e.data.length ≤ 4))

/-- A category in the canonical form `repairCat` produces. -/
def CatStable (c : Cat) : Prop :=
  c.id ≠ "" ∧ jsTrim c.id = c.id ∧ c.name ≠ "" ∧ jsTrim c.name = c.name ∧
  EmojiOK c.emoji

/-- An item in the canonical form the repair pass produces (relative to
the document's category ids). -/
def ItemStable (catIds : List String) (it : Item) : Prop :=
  it.id ≠ "" ∧ it.cat ≠ "" ∧ it.cat ∈ catIds ∧ it.name ≠ "" ∧
  it.name.data.length ≤ 80 ∧ EmojiOK it.emoji

/-- The static well-formedness of a preset catalog entry: at least one
category, distinct canonical category ids, and item templates with
bounded non-empty names and emojis pointing at existing categories. -/
def PresetGood (p : Preset) : Prop :=
  p.cats ≠ [] ∧
  (p.cats.map (fun c => c.id)).Nodup ∧
  (∀ c ∈ p.cats, CatStable c) ∧
  (∀ t ∈ p.pitems, (∃ c ∈ p.cats, c.id = t.cat) ∧ t.name ≠ "" ∧
    t.name.data.length ≤ 80 ∧ (t.emoji ≠ "" → t.emoji.data.length ≤ 4))

instance (c : Cat) : Decidable (CatStable c) := by
  unfold CatStable; infer_instance

instance (catIds : List String) (it : Item) : Decidable (ItemStable catIds it) := by
  unfold ItemStable; infer_instance

instance (p : Preset) : Decidable (PresetGood p) := by
  unfold PresetGood; infer_instance

instance (d : Doc) : Decidable (catOK d) := by
  unfold catOK; infer_instance

instance (d : Doc) : Decidable (idsNodup d) := by
  unfold idsNodup; infer_instance

instance (v : JVal) : Decidable (StrSafe v) := by
  unfold StrSafe; infer_instance

instance (d : JVal) : Decidable (CondDoc d) := by
  unfold CondDoc; infer_instance


/-- A document in the canonical form the repair pass produces; a second
repair pass is the identity on such documents. -/
def DocStable (d : Doc) : Prop :=
  d.version = 2 ∧ d.mode ≠ "" ∧ d.cats ≠ [] ∧
  (∀ c ∈ d.cats, CatStable c) ∧
  (∀ it ∈ d.items, ItemStable (catIdsOf d) it) ∧
  idsNodup d

instance (d : Doc) : Decidable (DocStable d) := by
  unfold DocStable; infer_instance

/-! ## Completion-scenario composites (the observed call pattern:
every `toggleDone` is followed by `runProgress`) -/

/-- The ids of the not-yet-done items, in list order. -/
def pendingIds (s : AppState) : List String :=
  (s.data.items.filter (fun it => !it.done)).map (fun it => it.id)

/-- One toggle followed by the completion check. -/
def completeStep (s : AppState) (id : String) : AppState :=
  runProgress (toggleDoneS id s)

/-- Marking every not-done item done through `toggleDone`, running the
completion check after each toggle. -/
def completeAll (s : AppState) : AppState :=
  (pendingIds s).foldl completeStep s

/-- Item ids that survive `ensureString(id, 120)` unchanged (every id the
app itself generates or repairs does). -/
def CleanItems (s : AppState) : Prop :=
  ∀ it ∈ s.data.items, ensureStringS it.id 120 = it.id ∧ it.id ≠ ""

instance (s : AppState) : Decidable (CleanItems s) := by
  unfold CleanItems; infer_instance

/-! ## Concrete fixtures for the witnesses and counterexamples -/

/-- A concrete well-behaved id generator: `#`, `#a`, `#aa`, ... -/
def uidW : Nat → String := fun n => ⟨'#' :: List.replicate n 'a'⟩

/-- A parsed value on which repair is not idempotent: its `mode` is the
empty array, which is truthy but string-coerces to the empty string. -/
def dModeArr : JVal :=
  .obj [ ("mode", .arr [])
       , ("cats", .arr [.obj [("id", .str "a"), ("name", .str "b")]])
       , ("items", .arr []) ]

/-- A parsed value with two categories sharing one id. -/
def dDupCats : JVal :=
  .obj [ ("mode", .str "salida")
       , ("cats", .arr [ .obj [("id", .str "a"), ("name", .str "n")]
                       , .obj [("id", .str "a"), ("name", .str "m")] ])
       , ("items", .arr []) ]

/-- A freshly booted state over the default preset. -/
def bootState : AppState :=
  { settings := defaultSettings
  , data := (newPreset uidW "salida" 0).1
  , activeCat := "all" }

/-- The executor right after boot. -/
def bootExec : Exec :=
  { store := { val := bootState, ident := 0, nextIdent := 1, notifyCount := 0 }
  , gen := 9
  , saveDataCalls := 0
  , saveSettingsCalls := 0 }

/-- A small concrete store over a JS object state. -/
def store0 : Store JVal :=
  { val := .obj [("activeCat", .str "all")], ident := 0, nextIdent := 1, notifyCount := 0 }

/-- `createItem` arguments with a category that exists in the default
preset. -/
def argsGood : CreateArgs := { name := .str "  holita  ", emoji := .str "xy", cat := .str "docs" }

/-- `createItem` arguments whose name trims to the empty string. -/
def argsEmptyName : CreateArgs := { name := .str "   ", emoji := .null, cat := .str "docs" }

/-- `createItem` arguments pointing at a category id absent from every
preset. -/
def argsBadCat : CreateArgs := { name := .str "x", emoji := .null, cat := .str "zzz" }

/-! # Proofs -/

/-! ## Generic list and string lemmas -/

theorem list_map_eq_self {α : Type} (f : α → α) :
    ∀ l : List α, (∀ x ∈ l, f x = x) → l.map f = l := by
  intro l h
  induction l with
  | nil => rfl
  | cons a t ih =>
      simp only [List.map_cons]
      rw [h a (by simp), ih (fun x hx => h x (by simp [hx]))]

theorem dropWhile_eq_self_of_prefix (p : Char → Bool) :
    ∀ {l t : List Char}, t <+: l → l.dropWhile p = l → t.dropWhile p = t := by
  intro l t hpre hl
  cases t with
  | nil => rfl
  | cons a t' =>
      obtain ⟨r, hr⟩ := hpre
      have hpa : p a = false := by
        by_contra hne
        have hpa' : p a = true := by
          cases hpa2 : p a
          · exact absurd hpa2 hne
          · rfl
        subst hr
        simp only [List.cons_append] at hl
        rw [List.dropWhile_cons, if_pos hpa'] at hl
        have hlen : (List.dropWhile p (t' ++ r)).length = t'.length + r.length + 1 := by
          have := congrArg List.length hl
          simp at this
          omega
        have hle : (List.dropWhile p (t' ++ r)).length ≤ t'.length + r.length := by
          have := (List.dropWhile_suffix (l := t' ++ r) p).length_le
          simpa using this
        omega
      rw [List.dropWhile_cons, if_neg (by simp [hpa])]

theorem string_ne_empty_iff (s : String) : s ≠ "" ↔ s.data ≠ [] := by
  constructor
  · intro h hdata
    exact h (String.ext hdata)
  · intro h heq
    apply h
    rw [heq]

theorem jsTrim_idem (s : String) : jsTrim (jsTrim s) = jsTrim s := by
  unfold jsTrim
  apply String.ext
  show ((((((s.data.dropWhile isJsWS).reverse.dropWhile isJsWS).reverse).dropWhile
      isJsWS).reverse.dropWhile isJsWS).reverse) =
    ((s.data.dropWhile isJsWS).reverse.dropWhile isJsWS).reverse
  set A := s.data.dropWhile isJsWS with hA
  set C := A.reverse.dropWhile isJsWS with hC
  have hB : C.reverse.dropWhile isJsWS = C.reverse := by
    apply dropWhile_eq_self_of_prefix isJsWS (l := A)
    · have h1 : C <:+ A.reverse := List.dropWhile_suffix isJsWS
      have h2 : C.reverse <+: A.reverse.reverse := List.reverse_prefix.mpr h1
      rwa [List.reverse_reverse] at h2
    · rw [hA]
      exact List.dropWhile_idempotent isJsWS s.data
  rw [hB, List.reverse_reverse, hC, List.dropWhile_idempotent]

theorem jsSlice_length_le (s : String) (n : Nat) : (jsSlice s n).data.length ≤ n := by
  simp [jsSlice]

theorem jsSlice_self (s : String) (n : Nat) (h : s.data.length ≤ n) : jsSlice s n = s := by
  apply String.ext
  simp [jsSlice, List.take_of_length_le h]

theorem jsSlice_ne_empty (s : String) (n : Nat) (hs : s ≠ "") (hn : 0 < n) :
    jsSlice s n ≠ "" := by
  rw [string_ne_empty_iff] at hs ⊢
  cases hd : s.data with
  | nil => exact absurd hd hs
  | cons c cs =>
      cases n with
      | zero => omega
      | succ m => simp [jsSlice, hd]

/-! ## The witness id generator -/

theorem uidW_data (n : Nat) : (uidW n).data = '#' :: List.replicate n 'a' := rfl

theorem uidW_inj : Function.Injective uidW := by
  intro a b h
  have h2 := congrArg (fun s : String => s.data.length) h
  simp [uidW] at h2
  exact h2

theorem uidW_ne_empty (n : Nat) : uidW n ≠ "" := by
  rw [string_ne_empty_iff, uidW_data]
  simp

theorem uidW_not_mem (ss : List String) (h : ∀ x ∈ ss, x.data.head? ≠ some '#') :
    ∀ n, uidW n ∉ ss := by
  intro n hn
  exact h (uidW n) hn (by rw [uidW_data]; rfl)

theorem uidW_ok : UidOK uidW := ⟨uidW_inj, uidW_ne_empty⟩

/-! ## Preset catalog lemmas -/

theorem allPresets_good : ∀ p ∈ allPresets, PresetGood p := by decide

theorem presetFor_mem (m : String) : presetFor m ∈ allPresets := by
  unfold presetFor
  repeat' split
  all_goals simp [allPresets]

theorem presetFor_good (m : String) : PresetGood (presetFor m) :=
  allPresets_good _ (presetFor_mem m)

/-! ## Materialization lemmas -/

theorem materializeItems_mem (uidf : Nat → String) :
    ∀ (ts : List TItem) (g : Nat) (it : Item),
      it ∈ (materializeItems uidf ts g).1 →
      ∃ t ∈ ts, ∃ k, g ≤ k ∧ k < g + ts.length ∧
        it = { id := uidf k, cat := t.cat, name := t.name
             , emoji := if t.emoji ≠ "" then some t.emoji else none
             , done := false } := by
  intro ts
  induction ts with
  | nil => intro g it hit; simp [materializeItems] at hit
  | cons t ts ih =>
      intro g it hit
      simp only [materializeItems, List.mem_cons] at hit
      rcases hit with h | h
      · exact ⟨t, by simp, g, le_refl g, by simp, h⟩
      · obtain ⟨t', ht', k, hk1, hk2, hk3⟩ := ih (g + 1) it h
        exact ⟨t', by simp [ht'], k, by omega, by simp; omega, hk3⟩

theorem materializeItems_ids (uidf : Nat → String) :
    ∀ (ts : List TItem) (g : Nat),
      (materializeItems uidf ts g).1.map (fun it => it.id) =
        (List.range' g ts.length).map uidf := by
  intro ts
  induction ts with
  | nil => intro g; simp [materializeItems]
  | cons t ts ih =>
      intro g
      simp only [materializeItems, List.map_cons, List.length_cons, List.range'_succ]
      rw [ih (g + 1)]

theorem materializeItems_nodup (uidf : Nat → String) (hinj : Function.Injective uidf)
    (ts : List TItem) (g : Nat) :
    ((materializeItems uidf ts g).1.map (fun it => it.id)).Nodup := by
  rw [materializeItems_ids]
  exact (List.nodup_range' g ts.length).map hinj

/-! ## newPreset lemmas -/

theorem newPreset_mode (uidf : Nat → String) (m : String) (g : Nat) :
    (newPreset uidf m g).1.mode = m := rfl

theorem newPreset_cats (uidf : Nat → String) (m : String) (g : Nat) :
    (newPreset uidf m g).1.cats = (presetFor m).cats := rfl

theorem newPreset_items (uidf : Nat → String) (m : String) (g : Nat) :
    (newPreset uidf m g).1.items = (materializeItems uidf (presetFor m).pitems g).1 := rfl

theorem newPreset_done (uidf : Nat → String) (m : String) (g : Nat) :
    ∀ it ∈ (newPreset uidf m g).1.items, it.done = false := by
  intro it hit
  rw [newPreset_items] at hit
  obtain ⟨t, _, k, _, _, heq⟩ := materializeItems_mem uidf _ g it hit
  rw [heq]

theorem newPreset_catOK (uidf : Nat → String) (m : String) (g : Nat) :
    catOK (newPreset uidf m g).1 := by
  intro it hit
  rw [newPreset_items] at hit
  obtain ⟨t, ht, k, _, _, heq⟩ := materializeItems_mem uidf _ g it hit
  obtain ⟨_, _, _, hts⟩ := presetFor_good m
  obtain ⟨⟨c, hc, hcid⟩, _⟩ := hts t ht
  have : catIdsOf (newPreset uidf m g).1 = (presetFor m).cats.map (fun c => c.id) := rfl
  rw [this, heq]
  exact List.mem_map.mpr ⟨c, hc, hcid⟩

theorem newPreset_idsNodup (uidf : Nat → String) (hinj : Function.Injective uidf)
    (m : String) (g : Nat) : idsNodup (newPreset uidf m g).1 := by
  unfold idsNodup
  rw [newPreset_items]
  exact materializeItems_nodup uidf hinj _ g

theorem newPreset_ids_ge (uidf : Nat → String) (m : String) (g : Nat) :
    ∀ it ∈ (newPreset uidf m g).1.items, ∃ k, g ≤ k ∧ it.id = uidf k := by
  intro it hit
  rw [newPreset_items] at hit
  obtain ⟨t, _, k, hk1, _, heq⟩ := materializeItems_mem uidf _ g it hit
  exact ⟨k, hk1, by rw [heq]⟩

theorem newPreset_stable (uidf : Nat → String) (hu : UidOK uidf) (m : String)
    (hm : m ≠ "") (g : Nat) : DocStable (newPreset uidf m g).1 := by
  obtain ⟨hinj, hne⟩ := hu
  obtain ⟨hcne, _, hcats, hts⟩ := presetFor_good m
  refine ⟨rfl, hm, ?_, ?_, ?_, newPreset_idsNodup uidf hinj m g⟩
  · rw [newPreset_cats]; exact hcne
  · rw [newPreset_cats]; exact hcats
  · intro it hit
    rw [newPreset_items] at hit
    obtain ⟨t, ht, k, _, _, heq⟩ := materializeItems_mem uidf _ g it hit
    obtain ⟨⟨c, hc, hcid⟩, hn1, hn2, hemo⟩ := hts t ht
    obtain ⟨hcid_ne, _, _, _, _⟩ := hcats c hc
    subst heq
    refine ⟨hne k, ?_, ?_, hn1, hn2, ?_⟩
    · show t.cat ≠ ""
      rw [← hcid]; exact hcid_ne
    · show t.cat ∈ catIdsOf (newPreset uidf m g).1
      have hc' : catIdsOf (newPreset uidf m g).1 = (presetFor m).cats.map (fun c => c.id) := rfl
      rw [hc']
      exact List.mem_map.mpr ⟨c, hc, hcid⟩
    · show EmojiOK (if t.emoji ≠ "" then some t.emoji else none)
      by_cases he : t.emoji = ""
      · simp [he, EmojiOK]
      · simp only [he, if_pos, ne_eq, not_false_iff, if_true]
        exact ⟨he, hemo he⟩

/-! ## De-duplication pass lemmas -/

theorem dedupIds_fields (uidf : Nat → String) :
    ∀ (l : List Item) (seen : List String) (g : Nat),
      ∀ it' ∈ (dedupIds uidf l seen g).1,
        ∃ it ∈ l, it'.cat = it.cat ∧ it'.name = it.name ∧ it'.emoji = it.emoji ∧
          it'.done = it.done := by
  intro l
  induction l with
  | nil => intro seen g it' h; simp [dedupIds] at h
  | cons a t ih =>
      intro seen g it' h
      unfold dedupIds at h
      split at h
      · rcases List.mem_cons.mp h with h1 | h1
        · exact ⟨a, by simp, by rw [h1], by rw [h1], by rw [h1], by rw [h1]⟩
        · obtain ⟨it, hmem, hs⟩ := ih _ _ it' h1
          exact ⟨it, by simp [hmem], hs⟩
      · rcases List.mem_cons.mp h with h1 | h1
        · exact ⟨a, by simp, by rw [h1], by rw [h1], by rw [h1], by rw [h1]⟩
        · obtain ⟨it, hmem, hs⟩ := ih _ _ it' h1
          exact ⟨it, by simp [hmem], hs⟩

theorem dedupIds_keep (uidf : Nat → String) :
    ∀ (l : List Item) (seen : List String) (g : Nat),
      (∀ it ∈ l, it.id ≠ "" ∧ it.id ∉ seen) →
      (l.map (fun it => it.id)).Nodup →
      dedupIds uidf l seen g = (l, g) := by
  intro l
  induction l with
  | nil => intro seen g _ _; rfl
  | cons a t ih =>
      intro seen g hok hnd
      obtain ⟨ha1, ha2⟩ := hok a (by simp)
      have hcond : ¬ (a.id = "" ∨ seen.contains a.id) := by
        rintro (h | h)
        · exact ha1 h
        · exact ha2 (List.mem_of_elem_eq_true h)
      rw [List.map_cons, List.nodup_cons] at hnd
      have ht : dedupIds uidf t (a.id :: seen) g = (t, g) := by
        apply ih
        · intro it hit
          obtain ⟨h1, h2⟩ := hok it (by simp [hit])
          refine ⟨h1, ?_⟩
          intro hmem
          rcases List.mem_cons.mp hmem with h3 | h3
          · exact hnd.1 (h3 ▸ List.mem_map.mpr ⟨it, hit, rfl⟩)
          · exact h2 h3
        · exact hnd.2
      unfold dedupIds
      rw [if_neg hcond, ht]

theorem dedupIds_spec (uidf : Nat → String) (hinj : Function.Injective uidf)
    (hne : ∀ n, uidf n ≠ "") :
    ∀ (l : List Item) (seen : List String) (g : Nat),
      (∀ n, g ≤ n → uidf n ∉ l.map (fun it => it.id)) →
      (∀ n, g ≤ n → uidf n ∉ seen) →
      ((dedupIds uidf l seen g).1.map (fun it => it.id)).Nodup ∧
      (∀ x ∈ (dedupIds uidf l seen g).1.map (fun it => it.id), x ∉ seen ∧ x ≠ "") ∧
      g ≤ (dedupIds uidf l seen g).2 := by
  intro l
  induction l with
  | nil => intro seen g _ _; exact ⟨by simp [dedupIds], by simp [dedupIds], by simp [dedupIds]⟩
  | cons a t ih =>
      intro seen g hfr hfs
      unfold dedupIds
      split
      · -- the id is regenerated as uidf g
        have hstep := ih (uidf g :: seen) (g + 1)
          (fun n hn => hfr n (by omega) ∘ fun h => List.mem_cons_of_mem _ h)
          (by
            intro n hn hmem
            rcases List.mem_cons.mp hmem with h | h
            · exact absurd (hinj h) (by omega)
            · exact hfs n (by omega) h)
        obtain ⟨hnd, hsub, hle⟩ := hstep
        refine ⟨?_, ?_, by simpa using by omega⟩
        · rw [List.map_cons, List.nodup_cons]
          refine ⟨?_, hnd⟩
          intro hmem
          exact (hsub _ hmem).1 (by simp)
        · intro x hx
          rcases List.mem_cons.mp hx with h | h
          · subst h
            exact ⟨hfs g (le_refl g), hne g⟩
          · obtain ⟨h1, h2⟩ := hsub x h
            exact ⟨fun hx2 => h1 (List.mem_cons_of_mem _ hx2), h2⟩
      · -- the id is kept
        rename_i hcond
        push_neg at hcond
        obtain ⟨haid, hseen⟩ := hcond
        have hstep := ih (a.id :: seen) g
          (fun n hn => hfr n hn ∘ fun h => List.mem_cons_of_mem _ h)
          (by
            intro n hn hmem
            rcases List.mem_cons.mp hmem with h | h
            · exact hfr n hn (by rw [h]; simp)
            · exact hfs n hn h)
        obtain ⟨hnd, hsub, hle⟩ := hstep
        refine ⟨?_, ?_, hle⟩
        · rw [List.map_cons, List.nodup_cons]
          refine ⟨?_, hnd⟩
          intro hmem
          exact (hsub _ hmem).1 (by simp)
        · intro x hx
          rcases List.mem_cons.mp hx with h | h
          · subst h
            refine ⟨fun hx2 => hseen ?_, haid⟩
            exact List.elem_eq_true_of_mem hx2
          · obtain ⟨h1, h2⟩ := hsub x h
            exact ⟨fun hx2 => h1 (List.mem_cons_of_mem _ hx2), h2⟩

/-! ## Item repair lemmas -/

theorem repairItem_snd (uidf : Nat → String) (x : JVal) (g : Nat) :
    (repairItem uidf x g).2 = if truthy (jGet x "id") then g else g + 1 := by
  unfold repairItem
  by_cases h : truthy (jGet x "id") = true <;> simp [h]

theorem repairItem_ge (uidf : Nat → String) (x : JVal) (g : Nat) :
    g ≤ (repairItem uidf x g).2 := by
  rw [repairItem_snd]
  split <;> omega

theorem repairItems_cons_snd (uidf : Nat → String) (x : JVal) (xs : List JVal) (g : Nat) :
    (repairItems uidf (x :: xs) g).2 = (repairItems uidf xs (repairItem uidf x g).2).2 := rfl

theorem repairItems_le (uidf : Nat → String) :
    ∀ (xs : List JVal) (g : Nat), g ≤ (repairItems uidf xs g).2 := by
  intro xs
  induction xs with
  | nil => intro g; exact le_refl g
  | cons x xs ih =>
      intro g
      rw [repairItems_cons_snd]
      exact le_trans (repairItem_ge uidf x g) (ih _)

theorem repairItems_cons_fst (uidf : Nat → String) (x : JVal) (xs : List JVal) (g : Nat) :
    (repairItems uidf (x :: xs) g).1 =
      (repairItem uidf x g).1 :: (repairItems uidf xs (repairItem uidf x g).2).1 := rfl

theorem repairItem_id (uidf : Nat → String) (x : JVal) (g : Nat) :
    (repairItem uidf x g).1.id =
      if truthy (jGet x "id") then jsToString (jGet x "id") else uidf g := by
  unfold repairItem
  by_cases h : truthy (jGet x "id") = true <;> simp [h]

theorem repairItems_ids (uidf : Nat → String) :
    ∀ (xs : List JVal) (g : Nat), ∀ it ∈ (repairItems uidf xs g).1,
      it.id ∈ keptIds xs ∨
        ∃ k, g ≤ k ∧ k < (repairItems uidf xs g).2 ∧ it.id = uidf k := by
  intro xs
  induction xs with
  | nil => intro g it hit; simp [repairItems] at hit
  | cons x xs ih =>
      intro g it hit
      rw [repairItems_cons_fst] at hit
      rcases List.mem_cons.mp hit with h | h
      · subst h
        by_cases ht : truthy (jGet x "id") = true
        · left
          unfold keptIds
          rw [repairItem_id]
          simp [ht]
        · right
          have hle := repairItems_le uidf xs ((repairItem uidf x g).2)
          have h2 : (repairItem uidf x g).2 = g + 1 := by
            rw [repairItem_snd]
            simp [ht]
          rw [repairItems_cons_snd, repairItem_id]
          refine ⟨g, le_refl g, ?_, by simp [ht]⟩
          omega
      · have := ih (repairItem uidf x g).2 it h
        rcases this with h1 | ⟨k, hk1, hk2, hk3⟩
        · left
          unfold keptIds at h1 ⊢
          rw [List.filterMap_cons]
          split <;> simp [h1]
        · right
          rw [repairItems_cons_snd]
          exact ⟨k, le_trans (repairItem_ge uidf x g) hk1, hk2, hk3⟩

theorem repairItems_mem (uidf : Nat → String) :
    ∀ (xs : List JVal) (g : Nat), ∀ it ∈ (repairItems uidf xs g).1,
      ∃ x ∈ xs, ∃ k, it = (repairItem uidf x k).1 := by
  intro xs
  induction xs with
  | nil => intro g it hit; simp [repairItems] at hit
  | cons x xs ih =>
      intro g it hit
      unfold repairItems at hit
      rcases List.mem_cons.mp hit with h | h
      · exact ⟨x, by simp, g, h⟩
      · obtain ⟨x', hx', k, hk⟩ := ih _ it h
        exact ⟨x', by simp [hx'], k, hk⟩

/-! ## Re-pointing pass lemmas -/

theorem repoint_ids (catIds : List String) (fc : String) :
    ∀ l : List Item,
      (l.map (fun it =>
        if catIds.contains it.cat then it else { it with cat := fc })).map
          (fun it => it.id) = l.map (fun it => it.id) := by
  intro l
  induction l with
  | nil => rfl
  | cons a t ih =>
      simp only [List.map_cons]
      rw [ih]
      congr 1
      split <;> rfl

/-! ## Assembled repair result lemmas -/

theorem repairAssemble_catOK (uidf : Nat → String) (mode : String) (c0 : Cat)
    (crest : List Cat) (items : List Item) (latch : Bool) (g : Nat) :
    catOK (repairAssemble uidf mode c0 crest items latch g).1 := by
  intro it hit
  unfold repairAssemble at hit
  simp only [] at hit
  obtain ⟨it2, hmem2, hcat, _, _, _⟩ := dedupIds_fields uidf _ [] g it hit
  rw [List.mem_map] at hmem2
  obtain ⟨it3, _, heq⟩ := hmem2
  have hcatIds : catIdsOf (repairAssemble uidf mode c0 crest items latch g).1 =
      (c0 :: crest).map (fun c => c.id) := rfl
  rw [hcatIds, hcat, ← heq]
  split
  · rename_i hin
    exact List.mem_of_elem_eq_true hin
  · show (if ((c0 :: crest).map (fun c => c.id)).contains "otros" then "otros" else c0.id) ∈ _
    split
    · rename_i hin
      exact List.mem_of_elem_eq_true hin
    · simp

theorem repairAssemble_idsNodup (uidf : Nat → String) (hinj : Function.Injective uidf)
    (hne : ∀ n, uidf n ≠ "") (mode : String) (c0 : Cat) (crest : List Cat)
    (items : List Item) (latch : Bool) (g : Nat)
    (hfr : ∀ n, g ≤ n → uidf n ∉ items.map (fun it => it.id)) :
    idsNodup (repairAssemble uidf mode c0 crest items latch g).1 := by
  unfold idsNodup repairAssemble
  simp only []
  have hfr2 : ∀ n, g ≤ n → uidf n ∉
      (items.map (fun it =>
        if ((c0 :: crest).map (fun c => c.id)).contains it.cat then it
        else { it with cat := if ((c0 :: crest).map (fun c => c.id)).contains "otros"
                              then "otros" else c0.id })).map (fun it => it.id) := by
    intro n hn
    rw [repoint_ids]
    exact hfr n hn
  exact (dedupIds_spec uidf hinj hne _ [] g hfr2 (by simp)).1

/-! ## repairData case lemmas -/

theorem repairData_catOK (uidf : Nat → String) (d : JVal) (m : String) (g : Nat) :
    catOK (repairData uidf d m g).1 := by
  unfold repairData
  split
  · exact newPreset_catOK uidf _ _
  · split
    · split
      · exact newPreset_catOK uidf _ _
      · exact repairAssemble_catOK uidf _ _ _ _ _ _
    · exact newPreset_catOK uidf _ _
    · exact newPreset_catOK uidf _ _
    · exact newPreset_catOK uidf _ _

theorem repairData_idsNodup (uidf : Nat → String) (hu : UidOK uidf) (d : JVal)
    (hkept : ∀ n, uidf n ∉ keptIds (itemsArr d)) (m : String) (g : Nat) :
    idsNodup (repairData uidf d m g).1 := by
  obtain ⟨hinj, hne⟩ := hu
  unfold repairData
  split
  · exact newPreset_idsNodup uidf hinj _ _
  · split
    · rename_i cxs ixs heqc heqi
      have hixs : itemsArr d = ixs := by
        unfold itemsArr
        rw [heqi]
      rw [hixs] at hkept
      split
      · exact newPreset_idsNodup uidf hinj _ _
      · apply repairAssemble_idsNodup uidf hinj hne
        intro n hn hmem
        rw [List.mem_map] at hmem
        obtain ⟨it, hit, hid⟩ := hmem
        rcases repairItems_ids uidf ixs g it hit with h1 | ⟨k, _, hk2, hk3⟩
        · exact hkept n (hid ▸ h1)
        · rw [hk3] at hid
          have : k = n := hinj hid
          omega
    · exact newPreset_idsNodup uidf hinj _ _
    · exact newPreset_idsNodup uidf hinj _ _
    · exact newPreset_idsNodup uidf hinj _ _

theorem loadData_catOK (uidf : Nat → String) (raw : Option JVal) (m : String) (g : Nat) :
    catOK (loadData uidf raw m g).1 := by
  cases raw with
  | none => exact newPreset_catOK uidf _ _
  | some d => exact repairData_catOK uidf d m g

theorem loadData_idsNodup (uidf : Nat → String) (hu : UidOK uidf) (raw : Option JVal)
    (hkept : ∀ d, raw = some d → ∀ n, uidf n ∉ keptIds (itemsArr d))
    (m : String) (g : Nat) : idsNodup (loadData uidf raw m g).1 := by
  cases raw with
  | none => exact newPreset_idsNodup uidf hu.1 _ _
  | some d => exact repairData_idsNodup uidf hu d (hkept d rfl) m g

/-! ## Small coercion lemmas -/

theorem jsToString_str (s : String) : jsToString (.str s) = s := rfl

theorem truthy_str_of_ne (s : String) (h : s ≠ "") : truthy (.str s) = true := by
  simp [truthy, h]

theorem jOr_pos (a b : JVal) (h : truthy a = true) : jOr a b = a := by
  simp [jOr, h]

theorem jOr_neg (a b : JVal) (h : truthy a = false) : jOr a b = b := by
  simp [jOr, h]

/-! ## repairCat lemmas -/

theorem repairCat_id_ne (x : JVal) : (repairCat x).id ≠ "" := by
  unfold repairCat
  simp only []
  split
  · decide
  · assumption

theorem repairCat_stable (x : JVal) (hx : StrSafe (jGet x "emoji")) :
    CatStable (repairCat x) := by
  unfold repairCat CatStable
  simp only []
  refine ⟨?_, ?_, ?_, ?_, ?_⟩
  · split
    · decide
    · assumption
  · split
    · decide
    · exact jsTrim_idem _
  · split
    · decide
    · assumption
  · split
    · decide
    · exact jsTrim_idem _
  · split
    · rename_i htr
      exact ⟨jsSlice_ne_empty _ 4 (hx htr) (by omega), jsSlice_length_le _ 4⟩
    · trivial

/-! ## Non-empty category ids after load (for C8) -/

theorem newPreset_catIds_ne (uidf : Nat → String) (m : String) (g : Nat) :
    ∀ c ∈ (newPreset uidf m g).1.cats, c.id ≠ "" := by
  intro c hc
  rw [newPreset_cats] at hc
  obtain ⟨_, _, hcats, _⟩ := presetFor_good m
  exact (hcats c hc).1

theorem repairData_catIds_ne (uidf : Nat → String) (d : JVal) (m : String) (g : Nat) :
    ∀ c ∈ (repairData uidf d m g).1.cats, c.id ≠ "" := by
  unfold repairData
  split
  · exact newPreset_catIds_ne uidf _ _
  · split
    · rename_i cxs ixs heqc heqi
      split
      · exact newPreset_catIds_ne uidf _ _
      · rename_i c0 crest heqm
        intro c hc
        have hc2 : c ∈ cxs.map repairCat := by
          rw [heqm]
          exact hc
        obtain ⟨x, _, heq⟩ := List.mem_map.mp hc2
        rw [← heq]
        exact repairCat_id_ne x
    · exact newPreset_catIds_ne uidf _ _
    · exact newPreset_catIds_ne uidf _ _
    · exact newPreset_catIds_ne uidf _ _

theorem loadData_catIds_ne (uidf : Nat → String) (raw : Option JVal) (m : String)
    (g : Nat) : ∀ c ∈ (loadData uidf raw m g).1.cats, c.id ≠ "" := by
  cases raw with
  | none => exact newPreset_catIds_ne uidf _ _
  | some d => exact repairData_catIds_ne uidf d m g

theorem newPreset_catIds_nodup (uidf : Nat → String) (m : String) (g : Nat) :
    ((newPreset uidf m g).1.cats.map (fun c => c.id)).Nodup := by
  rw [newPreset_cats]
  exact (presetFor_good m).2.1

/-! ## repairItem field lemmas -/

theorem repairItem_cat (uidf : Nat → String) (x : JVal) (g : Nat) :
    (repairItem uidf x g).1.cat = jsToString (jOr (jGet x "cat") (.str "otros")) := by
  unfold repairItem
  by_cases h : truthy (jGet x "id") = true <;> simp [h]

theorem repairItem_name (uidf : Nat → String) (x : JVal) (g : Nat) :
    (repairItem uidf x g).1.name =
      jsSlice (jsToString (jOr (jGet x "name") (.str "Sin nombre"))) 80 := by
  unfold repairItem
  by_cases h : truthy (jGet x "id") = true <;> simp [h]

theorem repairItem_emoji (uidf : Nat → String) (x : JVal) (g : Nat) :
    (repairItem uidf x g).1.emoji =
      if truthy (jGet x "emoji") then some (jsSlice (jsToString (jGet x "emoji")) 4)
      else none := by
  unfold repairItem
  by_cases h : truthy (jGet x "id") = true <;>
    by_cases h2 : truthy (jGet x "emoji") = true <;> simp [h, h2]

theorem repairItem_stableFields (uidf : Nat → String) (x : JVal) (g : Nat)
    (hn : StrSafe (jGet x "name")) (he : StrSafe (jGet x "emoji")) :
    (repairItem uidf x g).1.name ≠ "" ∧ (repairItem uidf x g).1.name.data.length ≤ 80 ∧
      EmojiOK (repairItem uidf x g).1.emoji := by
  refine ⟨?_, ?_, ?_⟩
  · rw [repairItem_name]
    apply jsSlice_ne_empty _ 80 ?_ (by omega)
    by_cases ht : truthy (jGet x "name") = true
    · rw [jOr_pos _ _ ht]
      exact hn ht
    · rw [jOr_neg _ _ (by simp at ht; exact ht)]
      decide
  · rw [repairItem_name]
    exact jsSlice_length_le _ 80
  · rw [repairItem_emoji]
    split
    · rename_i ht
      exact ⟨jsSlice_ne_empty _ 4 (he ht) (by omega), jsSlice_length_le _ 4⟩
    · trivial

/-! ## Stability of the repair output -/

theorem resolvedMode_ne (d : JVal) (m : String) (hs : StrSafe (jGet d "mode"))
    (hm : m ≠ "") : resolvedMode d m ≠ "" := by
  unfold resolvedMode
  split
  · by_cases ht : truthy (jGet d "mode") = true
    · rw [jOr_pos _ _ ht]
      exact hs ht
    · rw [jOr_neg _ _ (by simp at ht; exact ht),
        jOr_pos _ _ (truthy_str_of_ne m hm), jsToString_str]
      exact hm
  · exact hm

theorem repairAssemble_stable (uidf : Nat → String) (hinj : Function.Injective uidf)
    (hne : ∀ n, uidf n ≠ "") (mode : String) (c0 : Cat) (crest : List Cat)
    (items : List Item) (latch : Bool) (g : Nat)
    (hmode : mode ≠ "")
    (hcats : ∀ c ∈ c0 :: crest, CatStable c)
    (hitems : ∀ it ∈ items, it.name ≠ "" ∧ it.name.data.length ≤ 80 ∧ EmojiOK it.emoji)
    (hfr : ∀ n, g ≤ n → uidf n ∉ items.map (fun it => it.id)) :
    DocStable (repairAssemble uidf mode c0 crest items latch g).1 := by
  have hnodup := repairAssemble_idsNodup uidf hinj hne mode c0 crest items latch g hfr
  have hcatok := repairAssemble_catOK uidf mode c0 crest items latch g
  have hcne : ∀ s ∈ catIdsOf (repairAssemble uidf mode c0 crest items latch g).1, s ≠ "" := by
    intro s hs
    have : catIdsOf (repairAssemble uidf mode c0 crest items latch g).1 =
        (c0 :: crest).map (fun c => c.id) := rfl
    rw [this] at hs
    obtain ⟨c, hcmem, heq⟩ := List.mem_map.mp hs
    rw [← heq]
    exact (hcats c hcmem).1
  have hfr2 : ∀ n, g ≤ n → uidf n ∉
      (items.map (fun it =>
        if ((c0 :: crest).map (fun c => c.id)).contains it.cat then it
        else { it with cat := if ((c0 :: crest).map (fun c => c.id)).contains "otros"
                              then "otros" else c0.id })).map (fun it => it.id) := by
    intro n hn
    rw [repoint_ids]
    exact hfr n hn
  have hidne := (dedupIds_spec uidf hinj hne _ [] g hfr2 (by simp)).2.1
  refine ⟨rfl, hmode, by simp [repairAssemble], hcats, ?_, hnodup⟩
  intro it hit
  have hit' : it ∈ (dedupIds uidf
      (items.map (fun it =>
        if ((c0 :: crest).map (fun c => c.id)).contains it.cat then it
        else { it with cat := if ((c0 :: crest).map (fun c => c.id)).contains "otros"
                              then "otros" else c0.id })) [] g).1 := hit
  obtain ⟨it2, hmem2, hcat2, hname2, hemoji2, _⟩ := dedupIds_fields uidf _ [] g it hit'
  obtain ⟨it3, hmem3, heq3⟩ := List.mem_map.mp hmem2
  obtain ⟨hn3, hl3, he3⟩ := hitems it3 hmem3
  have hfield : it2.name = it3.name ∧ it2.emoji = it3.emoji := by
    rw [← heq3]
    split <;> exact ⟨rfl, rfl⟩
  refine ⟨?_, ?_, hcatok it hit, ?_, ?_, ?_⟩
  · exact (hidne it.id (List.mem_map.mpr ⟨it, hit', rfl⟩)).2
  · exact hcne it.cat (hcatok it hit)
  · rw [hname2, hfield.1]
    exact hn3
  · rw [hname2, hfield.1]
    exact hl3
  · rw [hemoji2, hfield.2]
    exact he3

theorem repairData_stable (uidf : Nat → String) (hu : UidOK uidf) (d : JVal)
    (m : String) (g : Nat) (hm : m ≠ "") (hc : CondDoc d)
    (hkept : ∀ n, uidf n ∉ keptIds (itemsArr d)) :
    DocStable (repairData uidf d m g).1 := by
  obtain ⟨hinj, hne⟩ := hu
  obtain ⟨hmode, hcemo, hitems⟩ := hc
  unfold repairData
  split
  · exact newPreset_stable uidf ⟨hinj, hne⟩ m hm g
  · split
    · rename_i cxs ixs heqc heqi
      have hcxs : catsArr d = cxs := by
        unfold catsArr
        rw [heqc]
      have hixs : itemsArr d = ixs := by
        unfold itemsArr
        rw [heqi]
      rw [hcxs] at hcemo
      rw [hixs] at hitems hkept
      split
      · exact newPreset_stable uidf ⟨hinj, hne⟩ _ (resolvedMode_ne d m hmode hm) _
      · rename_i c0 crest heqm
        apply repairAssemble_stable uidf hinj hne _ c0 crest _ _ _
          (resolvedMode_ne d m hmode hm)
        · intro c hcm
          have hc2 : c ∈ cxs.map repairCat := by
            rw [heqm]; exact hcm
          obtain ⟨x, hx, heq⟩ := List.mem_map.mp hc2
          rw [← heq]
          exact repairCat_stable x (hcemo x hx)
        · intro it hit
          obtain ⟨x, hx, k, heq⟩ := repairItems_mem uidf ixs g it hit
          rw [heq]
          exact repairItem_stableFields uidf x k (hitems x hx).1 (hitems x hx).2
        · intro n hn hmem
          obtain ⟨it, hit, hid⟩ := List.mem_map.mp hmem
          rcases repairItems_ids uidf ixs g it hit with h1 | ⟨k, _, hk2, hk3⟩
          · exact hkept n (hid ▸ h1)
          · rw [hk3] at hid
            have : k = n := hinj hid
            omega
    · exact newPreset_stable uidf ⟨hinj, hne⟩ _ (resolvedMode_ne d m hmode hm) _
    · exact newPreset_stable uidf ⟨hinj, hne⟩ _ (resolvedMode_ne d m hmode hm) _
    · exact newPreset_stable uidf ⟨hinj, hne⟩ _ (resolvedMode_ne d m hmode hm) _

/-! ## Round-trip: repairing an already-repaired document is the identity -/

theorem jGet_cat_id (c : Cat) : jGet (catToJVal c) "id" = .str c.id := rfl

theorem jGet_cat_name (c : Cat) : jGet (catToJVal c) "name" = .str c.name := rfl

theorem jGet_cat_emoji (c : Cat) :
    jGet (catToJVal c) "emoji" =
      (match c.emoji with | some e => .str e | none => .null) := rfl

theorem repairCat_roundtrip (c : Cat) (hc : CatStable c) : repairCat (catToJVal c) = c := by
  obtain ⟨h1, h2, h3, h4, h5⟩ := hc
  unfold repairCat
  rw [jGet_cat_id, jGet_cat_name, jGet_cat_emoji,
    jOr_pos _ _ (truthy_str_of_ne _ h1), jOr_pos _ _ (truthy_str_of_ne _ h3),
    jsToString_str, jsToString_str, h2, h4]
  cases c with
  | mk cid cname cemoji =>
      simp only [] at h1 h3 h5 ⊢
      rw [if_neg h1, if_neg h3]
      cases cemoji with
      | none => simp [truthy]
      | some e =>
          obtain ⟨he1, he2⟩ := h5
          simp only []
          rw [if_pos (truthy_str_of_ne e he1), jsToString_str, jsSlice_self e 4 he2]

theorem jGet_item_id (it : Item) : jGet (itemToJVal it) "id" = .str it.id := rfl

theorem jGet_item_cat (it : Item) : jGet (itemToJVal it) "cat" = .str it.cat := rfl

theorem jGet_item_name (it : Item) : jGet (itemToJVal it) "name" = .str it.name := rfl

theorem jGet_item_emoji (it : Item) :
    jGet (itemToJVal it) "emoji" =
      (match it.emoji with | some e => .str e | none => .null) := rfl

theorem jGet_item_done (it : Item) : jGet (itemToJVal it) "done" = .bool it.done := rfl

theorem repairItem_roundtrip (uidf : Nat → String) (it : Item) (g : Nat)
    (h1 : it.id ≠ "") (h2 : it.cat ≠ "") (h3 : it.name ≠ "")
    (h4 : it.name.data.length ≤ 80) (h5 : EmojiOK it.emoji) :
    repairItem uidf (itemToJVal it) g = (it, g) := by
  unfold repairItem
  rw [jGet_item_id, jGet_item_cat, jGet_item_name, jGet_item_emoji, jGet_item_done]
  rw [jOr_pos _ _ (truthy_str_of_ne _ h2), jOr_pos _ _ (truthy_str_of_ne _ h3)]
  simp only [truthy_str_of_ne _ h1, if_true, jsToString_str]
  rw [jsSlice_self _ 80 h4]
  cases it with
  | mk iid icat iname iemoji idone =>
      simp only [] at h5 ⊢
      cases iemoji with
      | none => simp [truthy]
      | some e =>
          obtain ⟨he1, he2⟩ := h5
          simp only []
          rw [if_pos (truthy_str_of_ne e he1), jsToString_str, jsSlice_self e 4 he2]
          simp [truthy]

theorem repairItems_roundtrip (uidf : Nat → String) :
    ∀ (l : List Item) (g : Nat),
      (∀ it ∈ l, it.id ≠ "" ∧ it.cat ≠ "" ∧ it.name ≠ "" ∧
        it.name.data.length ≤ 80 ∧ EmojiOK it.emoji) →
      repairItems uidf (l.map itemToJVal) g = (l, g) := by
  intro l
  induction l with
  | nil => intro g _; rfl
  | cons a t ih =>
      intro g hok
      obtain ⟨h1, h2, h3, h4, h5⟩ := hok a (by simp)
      have hhd : repairItem uidf (itemToJVal a) g = (a, g) :=
        repairItem_roundtrip uidf a g h1 h2 h3 h4 h5
      have htl := ih g (fun it hit => hok it (by simp [hit]))
      show (let hd := repairItem uidf (itemToJVal a) g
            let tl := repairItems uidf (t.map itemToJVal) hd.2
            (hd.1 :: tl.1, tl.2)) = (a :: t, g)
      rw [hhd]
      simp only []
      rw [htl]

theorem repairAssemble_of_stable (uidf : Nat → String) (mode : String) (c0 : Cat)
    (crest : List Cat) (items : List Item) (latch : Bool) (g : Nat)
    (hcat : ∀ it ∈ items, it.cat ∈ (c0 :: crest).map (fun c => c.id))
    (hids : ∀ it ∈ items, it.id ≠ "")
    (hnd : (items.map (fun it => it.id)).Nodup) :
    repairAssemble uidf mode c0 crest items latch g =
      ({ version := 2, mode := mode, cats := c0 :: crest, items := items
       , completedOnce := latch }, g) := by
  unfold repairAssemble
  have hmap : items.map (fun it =>
      if ((c0 :: crest).map (fun c => c.id)).contains it.cat then it
      else { it with cat := if ((c0 :: crest).map (fun c => c.id)).contains "otros"
                            then "otros" else c0.id }) = items := by
    apply list_map_eq_self
    intro it hit
    rw [if_pos (List.elem_eq_true_of_mem (hcat it hit))]
  simp only [hmap]
  rw [dedupIds_keep uidf items [] g (fun it hit => ⟨hids it hit, by simp⟩) hnd]

theorem jGet_doc_mode (doc : Doc) : jGet (docToJVal doc) "mode" = .str doc.mode := rfl

theorem jGet_doc_cats (doc : Doc) :
    jGet (docToJVal doc) "cats" = .arr (doc.cats.map catToJVal) := rfl

theorem jGet_doc_items (doc : Doc) :
    jGet (docToJVal doc) "items" = .arr (doc.items.map itemToJVal) := rfl

theorem jGet_doc_completed (doc : Doc) :
    jGet (docToJVal doc) "__completedOnce" = .bool doc.completedOnce := rfl

theorem resolvedMode_doc (doc : Doc) (m : String) (h : doc.mode ≠ "") :
    resolvedMode (docToJVal doc) m = doc.mode := by
  unfold resolvedMode
  rw [if_pos (by rfl : (truthy (docToJVal doc) && isObjType (docToJVal doc)) = true)]
  rw [jGet_doc_mode, jOr_pos _ _ (truthy_str_of_ne _ h), jsToString_str]

theorem repairData_of_stable (uidf : Nat → String) (doc : Doc) (hd : DocStable doc)
    (m : String) (g : Nat) : repairData uidf (docToJVal doc) m g = (doc, g) := by
  obtain ⟨hver, hmode, hcne, hcats, hitems, hnd⟩ := hd
  unfold repairData
  rw [if_neg (by simp [docToJVal, truthy, isObjType])]
  have hrepc : (doc.cats.map catToJVal).map repairCat = doc.cats := by
    rw [List.map_map]
    apply list_map_eq_self
    intro c hc
    exact repairCat_roundtrip c (hcats c hc)
  have hrepi : repairItems uidf (doc.items.map itemToJVal) g = (doc.items, g) := by
    apply repairItems_roundtrip
    intro it hit
    obtain ⟨i1, i2, _, i3, i4, i5⟩ := hitems it hit
    exact ⟨i1, i2, i3, i4, i5⟩
  cases hcs : doc.cats with
  | nil => exact absurd hcs hcne
  | cons c0 crest =>
      have hstep : (match jGet (docToJVal doc) "cats", jGet (docToJVal doc) "items" with
        | .arr cxs, .arr ixs =>
            let r := repairItems uidf ixs g
            (match cxs.map repairCat with
            | [] => newPreset uidf (resolvedMode (docToJVal doc) m) r.2
            | c0 :: crest =>
                repairAssemble uidf (resolvedMode (docToJVal doc) m) c0 crest r.1
                  (truthy (jGet (docToJVal doc) "__completedOnce")) r.2)
        | .arr _, _ => newPreset uidf (resolvedMode (docToJVal doc) m) g
        | _, .arr ixs =>
            newPreset uidf (resolvedMode (docToJVal doc) m)
              (repairItems uidf ixs g).2
        | _, _ => newPreset uidf (resolvedMode (docToJVal doc) m) g) = (doc, g) := by
        rw [jGet_doc_cats, jGet_doc_items]
        simp only [hrepi]
        rw [hrepc, hcs]
        simp only []
        rw [jGet_doc_completed, resolvedMode_doc doc m hmode]
        have hcat2 : ∀ it ∈ doc.items, it.cat ∈ (c0 :: crest).map (fun c => c.id) := by
          intro it hit
          have := (hitems it hit).2.2.1
          unfold catIdsOf at this
          rwa [hcs] at this
        have hids2 : ∀ it ∈ doc.items, it.id ≠ "" := fun it hit => (hitems it hit).1
        have htb : truthy (JVal.bool doc.completedOnce) = doc.completedOnce := rfl
        rw [htb, repairAssemble_of_stable uidf doc.mode c0 crest doc.items doc.completedOnce g
          hcat2 hids2 hnd]
        cases doc with
        | mk dver dmode dcats ditems dlatch =>
            simp only [] at hver hcs ⊢
            rw [hver, hcs]
      exact hstep

/-! ## Completion scenario lemmas -/

theorem toggleFirst_ids (a : String) :
    ∀ l : List Item, (toggleFirst a l).map (fun it => it.id) = l.map (fun it => it.id) := by
  intro l
  induction l with
  | nil => rfl
  | cons x xs ih =>
      unfold toggleFirst
      split
      · rename_i h
        simp [h]
      · simp only [List.map_cons]
        rw [ih]

theorem hasId_of_mem (a : String) (l : List Item) (it : Item) (hmem : it ∈ l)
    (hid : it.id = a) : hasId a l = true := by
  unfold hasId
  rw [List.any_eq_true]
  exact ⟨it, hmem, by simp [hid]⟩

theorem pendingIds_mem_ids (s : AppState) (a : String) (h : a ∈ pendingIds s) :
    ∃ it ∈ s.data.items, it.id = a ∧ it.done = false := by
  unfold pendingIds at h
  obtain ⟨it, hit, heq⟩ := List.mem_map.mp h
  rw [List.mem_filter] at hit
  exact ⟨it, hit.1, heq, by simpa using hit.2⟩

theorem toggleFirst_head_pending :
    ∀ (l : List Item), (l.map (fun it => it.id)).Nodup →
      ∀ (a : String) (tl : List String),
        (l.filter (fun it => !it.done)).map (fun it => it.id) = a :: tl →
        ((toggleFirst a l).filter (fun it => !it.done)).map (fun it => it.id) = tl := by
  intro l
  induction l with
  | nil => intro _ a tl h; simp at h
  | cons x xs ih =>
      intro hnd a tl hpend
      rw [List.map_cons, List.nodup_cons] at hnd
      by_cases hdone : x.done = true
      · have hfil : (x :: xs).filter (fun it => !it.done) =
            xs.filter (fun it => !it.done) := by
          rw [List.filter_cons]
          simp [hdone]
        rw [hfil] at hpend
        have hamem : a ∈ xs.map (fun it => it.id) := by
          have : a ∈ (xs.filter (fun it => !it.done)).map (fun it => it.id) := by
            rw [hpend]; simp
          obtain ⟨it, hit, heq⟩ := List.mem_map.mp this
          exact List.mem_map.mpr ⟨it, (List.mem_filter.mp hit).1, heq⟩
        have hxa : ¬ x.id = a := fun hxa => hnd.1 (hxa ▸ hamem)
        unfold toggleFirst
        rw [if_neg hxa]
        have hff : ((x :: toggleFirst a xs).filter (fun it => !it.done)) =
            (toggleFirst a xs).filter (fun it => !it.done) := by
          rw [List.filter_cons]
          simp [hdone]
        rw [hff]
        exact ih hnd.2 a tl hpend
      · have hdf : x.done = false := by
          cases h2 : x.done
          · rfl
          · exact absurd h2 hdone
        have hfil : (x :: xs).filter (fun it => !it.done) =
            x :: xs.filter (fun it => !it.done) := by
          rw [List.filter_cons]
          simp [hdf]
        rw [hfil, List.map_cons] at hpend
        injection hpend with h1 h2
        unfold toggleFirst
        rw [if_pos h1, List.filter_cons]
        simp [hdf, h2]

theorem toggleFirst_all_done :
    ∀ (l : List Item), (∀ it ∈ l, it.done = true) →
      ∀ a ∈ l.map (fun it => it.id),
        ((toggleFirst a l).filter (fun it => !it.done)).map (fun it => it.id) = [a] := by
  intro l
  induction l with
  | nil => intro _ a h; simp at h
  | cons x xs ih =>
      intro hall a hmem
      unfold toggleFirst
      by_cases hxa : x.id = a
      · rw [if_pos hxa, List.filter_cons]
        have hxd : x.done = true := hall x (by simp)
        simp only [hxd, Bool.not_true, Bool.not_false]
        have hrest : xs.filter (fun it => !it.done) = [] := by
          rw [List.filter_eq_nil_iff]
          intro it hit
          simp [hall it (by simp [hit])]
        simp [hrest, hxa]
      · rw [if_neg hxa]
        have hamem : a ∈ xs.map (fun it => it.id) := by
          rcases List.mem_map.mp hmem with ⟨it, hit, heq⟩
          rcases List.mem_cons.mp hit with h | h
          · exact absurd (by rw [← heq, h]) hxa
          · exact List.mem_map.mpr ⟨it, h, heq⟩
        have hxd : x.done = true := hall x (by simp)
        have hff : ((x :: toggleFirst a xs).filter (fun it => !it.done)) =
            (toggleFirst a xs).filter (fun it => !it.done) := by
          rw [List.filter_cons]
          simp [hxd]
        rw [hff]
        exact ih (fun it hit => hall it (by simp [hit])) a hamem

theorem completedOf_iff (d : Doc) :
    completedOf d = true ↔ d.items ≠ [] ∧ ∀ it ∈ d.items, it.done = true := by
  unfold completedOf doneCount
  rw [Bool.and_eq_true, decide_eq_true_eq, beq_iff_eq, List.filter_length_eq_length]
  constructor
  · rintro ⟨h1, h2⟩
    exact ⟨List.length_pos.mp h1, h2⟩
  · rintro ⟨h1, h2⟩
    exact ⟨List.length_pos.mpr h1, h2⟩

theorem pendingIds_nil_iff (s : AppState) :
    pendingIds s = [] ↔ ∀ it ∈ s.data.items, it.done = true := by
  unfold pendingIds
  rw [List.map_eq_nil_iff, List.filter_eq_nil_iff]
  constructor
  · intro h it hit
    have := h it hit
    simpa using this
  · intro h it hit
    simp [h it hit]

theorem runProgress_incomplete (s : AppState) (h : completedOf s.data = false)
    (hl : s.data.completedOnce = false) : runProgress s = s := by
  unfold runProgress
  rw [h]
  simp [hl]

theorem runProgress_complete (s : AppState) (h : completedOf s.data = true)
    (hl : s.data.completedOnce = false) :
    runProgress s =
      { s with
        data := { s.data with completedOnce := true },
        settings := { s.settings with streak := s.settings.streak + 1 } } := by
  unfold runProgress
  rw [h]
  simp [hl]

theorem toggleDoneS_found (a : String) (s : AppState)
    (hclean : ensureStringS a 120 = a) (hne : a ≠ "")
    (hfound : hasId a s.data.items = true) :
    toggleDoneS a s =
      { s with data := { s.data with
        items := toggleFirst a s.data.items, completedOnce := false } } := by
  unfold toggleDoneS toggleApply
  rw [hclean]
  simp [hne, hfound]

theorem cleanItems_of_ids (s t : AppState) (hcl : CleanItems s)
    (hids : t.data.items.map (fun it => it.id) = s.data.items.map (fun it => it.id)) :
    CleanItems t := by
  intro it hit
  have : it.id ∈ s.data.items.map (fun it => it.id) := by
    rw [← hids]
    exact List.mem_map.mpr ⟨it, hit, rfl⟩
  obtain ⟨it', hit', heq⟩ := List.mem_map.mp this
  rw [← heq]
  exact hcl it' hit'

theorem completeAll_fold :
    ∀ (ids : List String) (s : AppState),
      (s.data.items.map (fun it => it.id)).Nodup →
      CleanItems s →
      s.data.completedOnce = false →
      ids = pendingIds s → ids ≠ [] →
      (ids.foldl completeStep s).data.completedOnce = true ∧
      (ids.foldl completeStep s).settings.streak = s.settings.streak + 1 ∧
      (∀ it ∈ (ids.foldl completeStep s).data.items, it.done = true) ∧
      (ids.foldl completeStep s).data.items.map (fun it => it.id) =
        s.data.items.map (fun it => it.id) := by
  intro ids
  induction ids with
  | nil => intro s _ _ _ _ hne; exact absurd rfl hne
  | cons a tl ih =>
      intro s hnd hcl hlatch hpend _
      have hamem : a ∈ pendingIds s := by rw [← hpend]; simp
      obtain ⟨ita, hita, hida, hdonea⟩ := pendingIds_mem_ids s a hamem
      obtain ⟨hcla, hnea⟩ := hida ▸ hcl ita hita
      have hfound : hasId a s.data.items = true := hasId_of_mem a _ ita hita hida
      have ht := toggleDoneS_found a s hcla hnea hfound
      set t := toggleDoneS a s with htdef
      have htitems : t.data.items = toggleFirst a s.data.items := by rw [ht]
      have htids : t.data.items.map (fun it => it.id) =
          s.data.items.map (fun it => it.id) := by
        rw [htitems, toggleFirst_ids]
      have htlatch : t.data.completedOnce = false := by rw [ht]
      have htsettings : t.settings = s.settings := by rw [ht]
      have htpend : pendingIds t = tl := by
        unfold pendingIds
        rw [htitems]
        exact toggleFirst_head_pending s.data.items hnd a tl (by rw [← hpend.symm]; rfl)
      have hlen : t.data.items ≠ [] := by
        intro hnil
        have := htids
        rw [hnil] at this
        have : s.data.items.map (fun it => it.id) = [] := by rw [← this]; rfl
        rw [List.map_eq_nil_iff] at this
        rw [this] at hita
        simp at hita
      cases tl with
      | nil =>
          have halldone : ∀ it ∈ t.data.items, it.done = true :=
            (pendingIds_nil_iff t).mp htpend
          have hcompl : completedOf t.data = true :=
            (completedOf_iff t.data).mpr ⟨hlen, halldone⟩
          have hrun := runProgress_complete t hcompl htlatch
          have hfold : List.foldl completeStep s [a] = runProgress t := by
            rw [htdef]
            rfl
          rw [hfold, hrun]
          refine ⟨rfl, by rw [htsettings], ?_, by rw [htids]⟩
          intro it hit
          exact halldone it hit
      | cons b tl' =>
          have hnotall : ¬ ∀ it ∈ t.data.items, it.done = true := by
            intro hall
            have := (pendingIds_nil_iff t).mpr hall
            rw [htpend] at this
            simp at this
          have hincompl : completedOf t.data = false := by
            cases hco : completedOf t.data
            · rfl
            · exact absurd ((completedOf_iff t.data).mp hco).2 hnotall
          have hrun := runProgress_incomplete t hincompl htlatch
          have hstep : completeStep s a = t := by
            unfold completeStep
            rw [← htdef, hrun]
          show ((a :: b :: tl').foldl completeStep s).data.completedOnce = true ∧ _
          rw [List.foldl_cons, hstep]
          have hih := ih t (by rw [htids]; exact hnd)
            (cleanItems_of_ids s t hcl htids) htlatch (by rw [htpend]) (by simp)
          obtain ⟨ih1, ih2, ih3, ih4⟩ := hih
          refine ⟨ih1, ?_, ih3, by rw [ih4, htids]⟩
          rw [ih2, htsettings]

/-- C2: starting from a document with at least one not-done item, streak S
and a cleared completion latch, toggling every not-done item done (running
the completion check after each toggle) sets `__completedOnce` and brings
the streak to exactly S+1; toggling any one item back resets the latch to
false (and the check after it changes nothing more); completing all items
again brings the streak to exactly S+2.  The hypotheses record the
invariants the app maintains for its own documents: distinct item ids that
survive `ensureString(id, 120)` unchanged. -/
theorem claim_C2 (s : AppState)
    (hnd : (s.data.items.map (fun it => it.id)).Nodup)
    (hcl : CleanItems s)
    (hlatch : s.data.completedOnce = false)
    (hpend : pendingIds s ≠ []) :
    (completeAll s).data.completedOnce = true ∧
    (completeAll s).settings.streak = s.settings.streak + 1 ∧
    (∀ it ∈ (completeAll s).data.items, it.done = true) ∧
    (∀ a ∈ (completeAll s).data.items.map (fun it => it.id),
      (toggleDoneS a (completeAll s)).data.completedOnce = false ∧
      (runProgress (toggleDoneS a (completeAll s))).settings.streak =
        s.settings.streak + 1 ∧
      (completeAll (runProgress (toggleDoneS a (completeAll s)))).data.completedOnce =
        true ∧
      (completeAll (runProgress (toggleDoneS a (completeAll s)))).settings.streak =
        s.settings.streak + 2) := by
  have hfold0 : completeAll s = (pendingIds s).foldl completeStep s := rfl
  obtain ⟨hA, hB, hC, hD⟩ :=
    completeAll_fold (pendingIds s) s hnd hcl hlatch rfl hpend
  rw [← hfold0] at hA hB hC hD
  refine ⟨hA, hB, hC, ?_⟩
  intro a ha
  set s1 := completeAll s with hs1
  have hclean1 : CleanItems s1 := cleanItems_of_ids s s1 hcl hD
  have hnd1 : (s1.data.items.map (fun it => it.id)).Nodup := by
    rw [hD]
    exact hnd
  obtain ⟨ita, hita, hidaeq⟩ := List.mem_map.mp ha
  obtain ⟨hcla, hnea⟩ := hidaeq ▸ hclean1 ita hita
  have hfound : hasId a s1.data.items = true := hasId_of_mem a _ ita hita hidaeq
  have ht := toggleDoneS_found a s1 hcla hnea hfound
  set t := toggleDoneS a s1 with htdef
  have htitems : t.data.items = toggleFirst a s1.data.items := by rw [ht]
  have htlatch : t.data.completedOnce = false := by rw [ht]
  have htsettings : t.settings = s1.settings := by rw [ht]
  have htids : t.data.items.map (fun it => it.id) =
      s1.data.items.map (fun it => it.id) := by
    rw [htitems, toggleFirst_ids]
  have htpend : pendingIds t = [a] := by
    unfold pendingIds
    rw [htitems]
    exact toggleFirst_all_done s1.data.items hC a ha
  have hincompl : completedOf t.data = false := by
    cases hco : completedOf t.data
    · rfl
    · have hall := ((completedOf_iff t.data).mp hco).2
      have := (pendingIds_nil_iff t).mpr hall
      rw [htpend] at this
      simp at this
  have hrun : runProgress t = t := runProgress_incomplete t hincompl htlatch
  have hfold2 : completeAll t = (pendingIds t).foldl completeStep t := rfl
  have hndt : (t.data.items.map (fun it => it.id)).Nodup := by
    rw [htids]
    exact hnd1
  obtain ⟨h2A, h2B, _, _⟩ :=
    completeAll_fold (pendingIds t) t hndt (cleanItems_of_ids s1 t hclean1 htids)
      htlatch rfl (by rw [htpend]; simp)
  rw [← hfold2] at h2A h2B
  refine ⟨htlatch, ?_, ?_, ?_⟩
  · rw [hrun, htsettings, hB]
  · rw [hrun]
    exact h2A
  · rw [hrun, h2B, htsettings, hB]

/-! ## Mutation preservation lemmas -/

theorem toggleFirst_cats (a : String) :
    ∀ l : List Item, (toggleFirst a l).map (fun it => it.cat) = l.map (fun it => it.cat) := by
  intro l
  induction l with
  | nil => rfl
  | cons x xs ih =>
      unfold toggleFirst
      split
      · rename_i h
        simp [h]
      · simp only [List.map_cons]
        rw [ih]

theorem catOK_congr (d d' : Doc) (hcats : catIdsOf d' = catIdsOf d)
    (hitems : d'.items.map (fun it => it.cat) = d.items.map (fun it => it.cat))
    (h : catOK d) : catOK d' := by
  intro it' hit'
  have hmem : it'.cat ∈ d.items.map (fun it => it.cat) := by
    rw [← hitems]
    exact List.mem_map.mpr ⟨it', hit', rfl⟩
  obtain ⟨it, hit, heq⟩ := List.mem_map.mp hmem
  rw [hcats, ← heq]
  exact h it hit

theorem map_setDone_cats (b : Bool) (l : List Item) :
    (l.map (fun it => { it with done := b })).map (fun it => it.cat) =
      l.map (fun it => it.cat) := by
  rw [List.map_map]
  rfl

theorem map_setDone_ids (b : Bool) (l : List Item) :
    (l.map (fun it => { it with done := b })).map (fun it => it.id) =
      l.map (fun it => it.id) := by
  rw [List.map_map]
  rfl

theorem toggleDoneS_cases (id : String) (s : AppState) :
    toggleDoneS id s = s ∨
    toggleDoneS id s =
      { s with data := { s.data with
        items := toggleFirst (ensureStringS id 120) s.data.items
      , completedOnce := false } } := by
  unfold toggleDoneS toggleApply
  by_cases h1 : ensureStringS id 120 = ""
  · left
    simp [h1]
  · by_cases h2 : hasId (ensureStringS id 120) s.data.items = true
    · right
      simp [h1, h2]
    · left
      simp [h1, h2]

theorem deleteItemS_cases (id : String) (s : AppState) :
    deleteItemS id s = s ∨
    deleteItemS id s =
      { s with data := { s.data with
        items := s.data.items.filter (fun it => it.id ≠ ensureStringS id 120)
      , completedOnce := false } } := by
  unfold deleteItemS
  by_cases h1 : ensureStringS id 120 = ""
  · left
    simp [h1]
  · right
    simp [h1]

/-- C1 (amended): loadData always establishes category referential
integrity, and every Action Layer mutation preserves it except that
`createItem` preserves it only when its cleaned `cat` argument
(`ensureString(cat, 40) || 'otros'`) is an id of an existing category —
`createItem` itself never checks the argument against `cats`. -/
theorem claim_C1 (uidf : Nat → String) :
    (∀ (raw : Option JVal) (m : String) (g : Nat), catOK (loadData uidf raw m g).1) ∧
    (∀ (id : String) (s : AppState), catOK s.data → catOK (toggleDoneS id s).data) ∧
    (∀ (id : String) (s : AppState), catOK s.data → catOK (deleteItemS id s).data) ∧
    (∀ s : AppState, catOK s.data → catOK (resetChecksS s).data) ∧
    (∀ (b : Bool) (s : AppState), catOK s.data → catOK (setAllS b s).data) ∧
    (∀ (a : CreateArgs) (s : AppState) (g : Nat), catOK s.data →
      cleanCatOf a ∈ catIdsOf s.data → catOK (createItemS uidf a s g).2.1.data) ∧
    (∀ (m : String) (s : AppState) (g : Nat), catOK (changeModeS uidf m s g).1.data) ∧
    (∀ (s : AppState) (g : Nat), catOK (wipeAllS uidf s g).1.data) := by
  refine ⟨loadData_catOK uidf, ?_, ?_, ?_, ?_, ?_, ?_, ?_⟩
  · intro id s h
    rcases toggleDoneS_cases id s with hc | hc
    · rw [hc]; exact h
    · rw [hc]
      exact catOK_congr s.data _ rfl (toggleFirst_cats _ s.data.items) h
  · intro id s h
    rcases deleteItemS_cases id s with hc | hc
    · rw [hc]; exact h
    · rw [hc]
      intro it hit
      exact h it (List.mem_of_mem_filter hit)
  · intro s h
    exact catOK_congr s.data _ rfl (map_setDone_cats false s.data.items) h
  · intro b s h
    exact catOK_congr s.data _ rfl (map_setDone_cats b s.data.items) h
  · intro a s g h hcat
    unfold createItemS
    by_cases hname : ensureString a.name 60 = ""
    · simp only [hname, if_pos rfl]
      exact h
    · rw [if_neg hname]
      intro it hit
      rcases List.mem_cons.mp hit with h1 | h1
      · rw [h1]
        exact hcat
      · exact h it h1
  · intro m s g
    exact newPreset_catOK uidf _ _
  · intro s g
    exact newPreset_catOK uidf _ _

/-- C1 counterexample: from the freshly booted default document (which
satisfies referential integrity), `createItem` with the unknown category
`'zzz'` produces a document whose first item's `cat` is not an id of any
category — the claim as stated fails for `createItem`. -/
theorem claim_C1_counterexample :
    catOK bootState.data ∧
    ¬ catOK (createItemS uidW argsBadCat bootState 9).2.1.data := by
  constructor
  · decide
  · decide

/-- C1 witness: the amended `createItem` clause at concrete inputs. -/
theorem claim_C1_witness :
    (catOK bootState.data ∧ cleanCatOf argsGood ∈ catIdsOf bootState.data) ∧
    catOK (createItemS uidW argsGood bootState 9).2.1.data :=
  ⟨⟨by decide, by decide⟩,
   (claim_C1 uidW).2.2.2.2.2.1 argsGood bootState 9 (by decide) (by decide)⟩

/-- C7: with a well-behaved id generator whose fresh ids avoid the raw
item ids kept by the repair pass, loadData always yields pairwise distinct
item ids, and every Action Layer mutation preserves distinctness
(`createItem` under the freshness of the one id it draws). -/
theorem claim_C7 (uidf : Nat → String) (hu : UidOK uidf) :
    (∀ (raw : Option JVal) (m : String) (g : Nat),
      (∀ d, raw = some d → ∀ n, uidf n ∉ keptIds (itemsArr d)) →
      idsNodup (loadData uidf raw m g).1) ∧
    (∀ (id : String) (s : AppState), idsNodup s.data → idsNodup (toggleDoneS id s).data) ∧
    (∀ (id : String) (s : AppState), idsNodup s.data → idsNodup (deleteItemS id s).data) ∧
    (∀ s : AppState, idsNodup s.data → idsNodup (resetChecksS s).data) ∧
    (∀ (b : Bool) (s : AppState), idsNodup s.data → idsNodup (setAllS b s).data) ∧
    (∀ (a : CreateArgs) (s : AppState) (g : Nat), idsNodup s.data →
      uidf g ∉ s.data.items.map (fun it => it.id) →
      idsNodup (createItemS uidf a s g).2.1.data) ∧
    (∀ (m : String) (s : AppState) (g : Nat), idsNodup (changeModeS uidf m s g).1.data) ∧
    (∀ (s : AppState) (g : Nat), idsNodup (wipeAllS uidf s g).1.data) := by
  refine ⟨fun raw m g hk => loadData_idsNodup uidf hu raw hk m g, ?_, ?_, ?_, ?_, ?_, ?_, ?_⟩
  · intro id s h
    rcases toggleDoneS_cases id s with hc | hc
    · rw [hc]; exact h
    · rw [hc]
      unfold idsNodup at h ⊢
      show ((toggleFirst (ensureStringS id 120) s.data.items).map (fun it => it.id)).Nodup
      rw [toggleFirst_ids]
      exact h
  · intro id s h
    rcases deleteItemS_cases id s with hc | hc
    · rw [hc]; exact h
    · rw [hc]
      unfold idsNodup at h ⊢
      have hsub : (s.data.items.filter
          (fun it => it.id ≠ ensureStringS id 120)).Sublist s.data.items :=
        List.filter_sublist _
      have hsub2 := hsub.map (fun it : Item => it.id)
      exact List.Nodup.sublist hsub2 h
  · intro s h
    unfold idsNodup at h ⊢
    show ((s.data.items.map (fun it => { it with done := false })).map
      (fun it => it.id)).Nodup
    rw [map_setDone_ids]
    exact h
  · intro b s h
    unfold idsNodup at h ⊢
    show ((s.data.items.map (fun it => { it with done := b })).map
      (fun it => it.id)).Nodup
    rw [map_setDone_ids]
    exact h
  · intro a s g h hfresh
    unfold createItemS
    by_cases hname : ensureString a.name 60 = ""
    · simp only [hname, if_pos rfl]
      exact h
    · rw [if_neg hname]
      unfold idsNodup at h ⊢
      rw [List.map_cons, List.nodup_cons]
      exact ⟨hfresh, h⟩
  · intro m s g
    exact newPreset_idsNodup uidf hu.1 _ _
  · intro s g
    exact newPreset_idsNodup uidf hu.1 _ _

/-- C7 witness: distinct ids after loading a stored document and after a
fresh `createItem` on the booted state. -/
theorem claim_C7_witness :
    (UidOK uidW ∧ (∀ d, (some dDupCats : Option JVal) = some d →
        ∀ n, uidW n ∉ keptIds (itemsArr d)) ∧
      idsNodup bootState.data ∧ uidW 9 ∉ bootState.data.items.map (fun it => it.id)) ∧
    idsNodup (loadData uidW (some dDupCats) "salida" 0).1 ∧
    idsNodup (createItemS uidW argsGood bootState 9).2.1.data := by
  have hkept : ∀ d, (some dDupCats : Option JVal) = some d →
      ∀ n, uidW n ∉ keptIds (itemsArr d) := by
    intro d hd n
    cases hd
    show uidW n ∉ keptIds (itemsArr dDupCats)
    have : keptIds (itemsArr dDupCats) = [] := by decide
    rw [this]
    simp
  refine ⟨⟨uidW_ok, hkept, by decide, by decide⟩, ?_, ?_⟩
  · exact (claim_C7 uidW uidW_ok).1 (some dDupCats) "salida" 0 hkept
  · exact (claim_C7 uidW uidW_ok).2.2.2.2.2.1 argsGood bootState 9 (by decide) (by decide)

/-- C3 counterexample: repair is not idempotent.  On a stored document
whose `mode` is the empty array (truthy, but string-coercing to `""`), the
first repair keeps `mode = ""` while the second repair replaces it with
the fallback mode, so the twice-repaired document differs from the
once-repaired one. -/
theorem claim_C3_counterexample :
    (repairData uidW dModeArr "salida" 0).1.mode = "" ∧
    (repairData uidW (docToJVal (repairData uidW dModeArr "salida" 0).1) "salida"
      (repairData uidW dModeArr "salida" 0).2).1.mode = "salida" ∧
    (repairData uidW (docToJVal (repairData uidW dModeArr "salida" 0).1) "salida"
      (repairData uidW dModeArr "salida" 0).2).1 ≠
      (repairData uidW dModeArr "salida" 0).1 := by
  refine ⟨by decide, by decide, by decide⟩

/-- C3 (amended): repair is idempotent provided the fallback mode is
non-empty, every string-coerced unguarded field of the input (`mode`,
category emojis, item names and emojis) has a non-empty string image when
truthy, and the id generator is well behaved and avoids the kept raw item
ids.  Under these conditions the second repair returns the first repair's
document unchanged and draws no fresh ids. -/
theorem claim_C3 (uidf : Nat → String) (hu : UidOK uidf) (d : JVal) (m : String)
    (g g' : Nat) (hm : m ≠ "") (hc : CondDoc d)
    (hkept : ∀ n, uidf n ∉ keptIds (itemsArr d)) :
    repairData uidf (docToJVal (repairData uidf d m g).1) m g' =
      ((repairData uidf d m g).1, g') :=
  repairData_of_stable uidf _ (repairData_stable uidf hu d m g hm hc hkept) m g'

/-- C3 witness: the amended idempotence at a concrete corrupt input. -/
theorem claim_C3_witness :
    ("salida" ≠ "" ∧ CondDoc JVal.null ∧
      (∀ n, uidW n ∉ keptIds (itemsArr JVal.null))) ∧
    repairData uidW (docToJVal (repairData uidW JVal.null "salida" 0).1) "salida" 7 =
      ((repairData uidW JVal.null "salida" 0).1, 7) := by
  have hkept : ∀ n, uidW n ∉ keptIds (itemsArr JVal.null) := by
    intro n
    have : keptIds (itemsArr JVal.null) = [] := by decide
    rw [this]
    simp
  exact ⟨⟨by decide, by decide, hkept⟩,
    claim_C3 uidW uidW_ok JVal.null "salida" 0 7 (by decide) (by decide) hkept⟩

/-- C4: loadData falls back to a fresh preset materialization when the
stored bytes are absent or unparseable, and the repair algorithm discards
any parsed value whose `cats` is not an array, whose `items` is not an
array, or whose `cats` is empty, returning a fresh preset for the resolved
mode instead of a partial repair. -/
theorem claim_C4 (uidf : Nat → String) :
    (∀ (m : String) (g : Nat), loadData uidf none m g = newPreset uidf m g) ∧
    (∀ (d : JVal) (m : String) (g : Nat), BadShape d →
      ∃ g', repairData uidf d m g = newPreset uidf (resolvedMode d m) g') := by
  constructor
  · intro m g
    rfl
  · intro d m g hbad
    unfold repairData
    split
    · rename_i hobj
      refine ⟨g, ?_⟩
      unfold resolvedMode
      rw [if_neg hobj]
    · rename_i hobj
      split
      · rename_i cxs ixs heqc heqi
        split
        · exact ⟨_, rfl⟩
        · rename_i c0 crest heqm
          exfalso
          rcases hbad with hb | hb | hb
          · rw [heqc] at hb
            simp [isArr] at hb
          · rw [heqi] at hb
            simp [isArr] at hb
          · rw [heqc] at hb
            cases cxs with
            | nil => simp at heqm
            | cons y ys => simp [isEmptyArr] at hb
      · exact ⟨g, rfl⟩
      · exact ⟨_, rfl⟩
      · exact ⟨g, rfl⟩

/-- C4 witness: the fallback at concrete inputs (absent bytes, and a
parsed number which has no `cats` array). -/
theorem claim_C4_witness :
    loadData uidW none "salida" 0 = newPreset uidW "salida" 0 ∧
    BadShape (JVal.num 5) ∧
    ∃ g', repairData uidW (JVal.num 5) "viaje" 3 =
      newPreset uidW (resolvedMode (JVal.num 5) "viaje") g' :=
  ⟨(claim_C4 uidW).1 "salida" 0, by decide,
   (claim_C4 uidW).2 (JVal.num 5) "viaje" 3 (by decide)⟩

/-- C8 counterexample: repair does not de-duplicate category ids.  A
stored document with two categories both named id `'a'` loads into a
document whose category ids are `["a", "a"]` — not pairwise distinct. -/
theorem claim_C8_counterexample :
    ((loadData uidW (some dDupCats) "salida" 0).1.cats.map (fun c => c.id)) =
      ["a", "a"] ∧
    ¬ ((loadData uidW (some dDupCats) "salida" 0).1.cats.map (fun c => c.id)).Nodup := by
  refine ⟨by decide, by decide⟩

/-- C8 (amended): every document produced by loadData has non-empty
category ids, and preset-materialized documents also have pairwise
distinct category ids; the repair pass itself never de-duplicates the
category ids of a stored document. -/
theorem claim_C8 (uidf : Nat → String) :
    (∀ (raw : Option JVal) (m : String) (g : Nat),
      ∀ c ∈ (loadData uidf raw m g).1.cats, c.id ≠ "") ∧
    (∀ (m : String) (g : Nat),
      ((newPreset uidf m g).1.cats.map (fun c => c.id)).Nodup) :=
  ⟨fun raw m g => loadData_catIds_ne uidf raw m g,
   fun m g => newPreset_catIds_nodup uidf m g⟩

/-- C8 witness: a concrete loaded category has a non-empty id, and the
default preset's category ids are distinct. -/
theorem claim_C8_witness :
    ((⟨"a", "n", none⟩ : Cat) ∈ (loadData uidW (some dDupCats) "salida" 0).1.cats ∧
      (⟨"a", "n", none⟩ : Cat).id ≠ "") ∧
    ((newPreset uidW "viaje" 0).1.cats.map (fun c => c.id)).Nodup :=
  ⟨⟨by decide, (claim_C8 uidW).1 (some dDupCats) "salida" 0 ⟨"a", "n", none⟩ (by decide)⟩,
   (claim_C8 uidW).2 "viaje" 0⟩

/-- C9: `setState` given anything that is neither a plain object nor a
function leaves the store untouched and notifies no subscriber, and an
updater whose computed next state is reference-identical to the previous
one (it returned a non-plain-object, the only way `next === prev` arises)
likewise notifies nobody. -/
theorem claim_C9 :
    (∀ (st : Store JVal) (v : JVal), isPlainObject v = false →
      setState st (.val v) = st) ∧
    (∀ (st : Store JVal) (f : JVal → JVal), isPlainObject (f st.val) = false →
      setState st (.fn f) = st) := by
  constructor
  · intro st v h
    unfold setState
    simp [h]
  · intro st f h
    unfold setState
    simp [h]

/-- C9 witness: a numeric patch and an updater returning a number leave a
concrete store byte-for-byte unchanged. -/
theorem claim_C9_witness :
    (isPlainObject (JVal.num 3) = false ∧
      setState store0 (.val (JVal.num 3)) = store0) ∧
    (isPlainObject ((fun _ => JVal.num 7) store0.val) = false ∧
      setState store0 (.fn (fun _ => JVal.num 7)) = store0) :=
  ⟨⟨rfl, claim_C9.1 store0 (JVal.num 3) rfl⟩,
   ⟨rfl, claim_C9.2 store0 (fun _ => JVal.num 7) rfl⟩⟩

/-! ## createItem / changeMode / toggleDone claim support -/

theorem normalizeEmoji_spec (v : JVal) :
    ∀ em, normalizeEmoji v = some em → em ≠ "" ∧ em.data.length ≤ 4 := by
  unfold normalizeEmoji
  intro em h
  by_cases hne : ensureString v 4 = ""
  · simp [hne] at h
  · have h2 : some (ensureString v 4) = some em := by simpa [hne] using h
    injection h2 with h2
    rw [← h2]
    exact ⟨hne, jsSlice_length_le _ 4⟩

/-- C5: `createItem` with a name that trims to the empty string returns
`ok:false` with reason `EMPTY_NAME` and leaves the executor (store value,
identity, notifications, persistence counters and generator) untouched;
with a non-empty trimmed name it returns `ok:true` and prepends exactly
one item, `done:false`, the name trimmed and capped at 60, the emoji
trimmed and capped at 4 or absent, clearing the completion latch. -/
theorem claim_C5 (uidf : Nat → String) (a : CreateArgs) (e : Exec) :
    (ensureString a.name 60 = "" →
      createItem uidf a e = ({ ok := false, reason := some "EMPTY_NAME" }, e)) ∧
    (ensureString a.name 60 ≠ "" →
      (createItem uidf a e).1 = { ok := true, reason := none } ∧
      (createItem uidf a e).2.store.val.data.items =
        { id := uidf e.gen, cat := cleanCatOf a, name := ensureString a.name 60
        , emoji := normalizeEmoji a.emoji, done := false } :: e.store.val.data.items ∧
      (ensureString a.name 60).data.length ≤ 60 ∧
      (∀ em, normalizeEmoji a.emoji = some em → em ≠ "" ∧ em.data.length ≤ 4) ∧
      (createItem uidf a e).2.store.val.data.completedOnce = false ∧
      (createItem uidf a e).2.store.notifyCount = e.store.notifyCount + 1 ∧
      (createItem uidf a e).2.saveDataCalls = e.saveDataCalls + 1) := by
  constructor
  · intro h
    unfold createItem createItemS
    simp [h]
  · intro h
    unfold createItem createItemS
    simp only [h, if_neg h]
    refine ⟨rfl, ?_, jsSlice_length_le _ 60, normalizeEmoji_spec a.emoji, ?_, rfl, rfl⟩
    · rfl
    · rfl

/-- C5 witness: the two validation behaviours at concrete inputs. -/
theorem claim_C5_witness :
    (ensureString argsEmptyName.name 60 = "" ∧
      createItem uidW argsEmptyName bootExec =
        ({ ok := false, reason := some "EMPTY_NAME" }, bootExec)) ∧
    (ensureString argsGood.name 60 ≠ "" ∧
      (createItem uidW argsGood bootExec).1 = { ok := true, reason := none }) :=
  ⟨⟨by decide, (claim_C5 uidW argsEmptyName bootExec).1 (by decide)⟩,
   ⟨by decide, ((claim_C5 uidW argsGood bootExec).2 (by decide)).1⟩⟩

/-- C6: for every catalog mode key B, `changeMode(B)` sets
`settings.tripMode` to B and replaces the document with a fresh preset for
B: its `mode` is B, every item is `done:false`, and its categories are
exactly the Preset Catalog entry's. -/
theorem claim_C6 (uidf : Nat → String) (s : AppState) (g : Nat) (B : String)
    (hB : B ∈ presetKeys) :
    (changeModeS uidf B s g).1.settings.tripMode = B ∧
    (changeModeS uidf B s g).1.data.mode = B ∧
    (∀ it ∈ (changeModeS uidf B s g).1.data.items, it.done = false) ∧
    (changeModeS uidf B s g).1.data.cats = (presetFor B).cats := by
  have hkey : ensureStringS B 24 = B ∧ B ≠ "" := by
    fin_cases hB <;> exact ⟨by decide, by decide⟩
  unfold changeModeS
  simp only [hkey.1]
  rw [if_neg hkey.2]
  exact ⟨rfl, rfl, newPreset_done uidf B g, rfl⟩

/-- C6 witness: switching the booted default-mode state to `'viaje'`. -/
theorem claim_C6_witness :
    ("viaje" ∈ presetKeys) ∧
    (changeModeS uidW "viaje" bootState 9).1.settings.tripMode = "viaje" ∧
    (changeModeS uidW "viaje" bootState 9).1.data.mode = "viaje" ∧
    (∀ it ∈ (changeModeS uidW "viaje" bootState 9).1.data.items, it.done = false) ∧
    (changeModeS uidW "viaje" bootState 9).1.data.cats = (presetFor "viaje").cats :=
  ⟨by decide, claim_C6 uidW bootState 9 "viaje" (by decide)⟩

/-- C10 counterexample: the claim quantifies over every id that matches no
item, but an id that cleans to the empty string (here the empty id, which
matches none of the booted items) returns before any commit: the state
object, the notification count and the persistence counter are all
untouched, contradicting the claimed fresh commit and notification. -/
theorem claim_C10_counterexample :
    (∀ it ∈ bootExec.store.val.data.items, it.id ≠ "") ∧
    toggleDone "" bootExec = bootExec := by
  refine ⟨by decide, by decide⟩

/-- C10 (amended): for every id whose cleaned form
(`ensureString(id, 120)`) is non-empty and matches no item, `toggleDone`
leaves the state value (items and latch included) unchanged, yet commits a
fresh state object — new identity, one notification round to the
subscribers — and triggers a debounced data write. -/
theorem claim_C10 (e : Exec) (id : String)
    (hne : ensureStringS id 120 ≠ "")
    (hnomatch : hasId (ensureStringS id 120) e.store.val.data.items = false)
    (hident : e.store.ident ≠ e.store.nextIdent) :
    (toggleDone id e).store.val = e.store.val ∧
    (toggleDone id e).store.ident ≠ e.store.ident ∧
    (toggleDone id e).store.notifyCount = e.store.notifyCount + 1 ∧
    (toggleDone id e).saveDataCalls = e.saveDataCalls + 1 := by
  unfold toggleDone updateData toggleApply Store.commit
  simp only [if_neg hne, hnomatch]
  refine ⟨by simp, fun hcontra => hident hcontra.symm, trivial, trivial⟩

/-- C10 witness: the amended frame effect at a concrete non-matching id. -/
theorem claim_C10_witness :
    (ensureStringS "zzz" 120 ≠ "" ∧
      hasId (ensureStringS "zzz" 120) bootExec.store.val.data.items = false ∧
      bootExec.store.ident ≠ bootExec.store.nextIdent) ∧
    (toggleDone "zzz" bootExec).store.val = bootExec.store.val ∧
    (toggleDone "zzz" bootExec).store.ident ≠ bootExec.store.ident ∧
    (toggleDone "zzz" bootExec).store.notifyCount = bootExec.store.notifyCount + 1 ∧
    (toggleDone "zzz" bootExec).saveDataCalls = bootExec.saveDataCalls + 1 :=
  ⟨⟨by decide, by decide, by decide⟩,
   claim_C10 bootExec "zzz" (by decide) (by decide) (by decide)⟩

/-- C2 witness: the full completion scenario on the booted default
document (9 items, none done, streak 0). -/
theorem claim_C2_witness :
    ((bootState.data.items.map (fun it => it.id)).Nodup ∧ CleanItems bootState ∧
      bootState.data.completedOnce = false ∧ pendingIds bootState ≠ []) ∧
    ((completeAll bootState).data.completedOnce = true ∧
      (completeAll bootState).settings.streak = bootState.settings.streak + 1 ∧
      (∀ it ∈ (completeAll bootState).data.items, it.done = true) ∧
      (∀ a ∈ (completeAll bootState).data.items.map (fun it => it.id),
        (toggleDoneS a (completeAll bootState)).data.completedOnce = false ∧
        (runProgress (toggleDoneS a (completeAll bootState))).settings.streak =
          bootState.settings.streak + 1 ∧
        (completeAll (runProgress
          (toggleDoneS a (completeAll bootState)))).data.completedOnce = true ∧
        (completeAll (runProgress
          (toggleDoneS a (completeAll bootState)))).settings.streak =
          bootState.settings.streak + 2)) :=
  ⟨⟨by decide, by decide, by decide, by decide⟩,
   claim_C2 bootState (by decide) (by decide) (by decide) (by decide)⟩
